import Mathlib

/-!
Shallow embedding of `src/eph-file.c` (Stellarium Web Engine, ephemeris tile
file reader) and verification of its natural-language specification.

Modelling conventions:
* Memory buffers are `List Nat` of bytes; every read clamps each byte with
  `% 256`, matching the fact that C memory holds bytes.  Out-of-range reads
  return 0 (in C they are undefined behaviour; the theorems below only rely
  on this modelling outside the domains the specification covers, and it is
  called out where it matters).
* 4-byte fields are read little-endian, as on the engine's target platforms
  (x86 / WebAssembly).  Where the C code stores a field into a signed
  `int`, the read is interpreted in two's complement via `toInt32`; where a
  field is only ever compared for equality, bit-tested, or used as an
  offset/size, it is kept as the unsigned `Nat` value, which is
  observationally equivalent for those operations.
* Signed `int` arithmetic that can overflow is modelled with two's
  complement wrap-around (the behaviour of the engine's WebAssembly and
  x86 targets; ISO C leaves signed overflow undefined).
* `double` arithmetic is idealised as exact rational arithmetic (`Rat`);
  IEEE-754 single-precision payload bytes are decoded exactly, with the
  non-finite encodings (exponent 255) mapped to 0 as a placeholder that no
  theorem relies on.
* The `CHECK` macro of `swe.h` (not part of the given source) is modelled
  from the spec: a failed check returns the format-error result `-1`.
* The `uncompress` primitive of zlib (external, out of scope per the spec)
  is a parameter of `eph_read_compressed_block`; the spec's contract for it
  ("fails on bad stream, size mismatch, insufficient input") appears as a
  hypothesis where needed.
* `assert` failures and reads whose pointer arithmetic leaves the buffer
  (genuine undefined behaviour) are modelled as `none` of an `Option`.
* Loops are written with an explicit structural fuel argument; the fuel is
  always sufficient on the paths the theorems speak about, and exhaustion
  is `none` / `false`, never a success result.
-/

/-- Read one byte of memory (C memory bytes are always `< 256`). -/
def readByte (data : List Nat) (i : Nat) : Nat := data.getD i 0 % 256

/-- Read `n` consecutive bytes starting at `i`. -/
def readBytes (data : List Nat) (i n : Nat) : List Nat :=
  (List.range n).map (fun k => readByte data (i + k))

/-- Read a little-endian unsigned 32-bit value. -/
def readU32 (data : List Nat) (i : Nat) : Nat :=
  readByte data i + 2^8 * readByte data (i+1) + 2^16 * readByte data (i+2) +
    2^24 * readByte data (i+3)

/-- Read a little-endian unsigned 64-bit value. -/
def readU64 (data : List Nat) (i : Nat) : Nat :=
  readU32 data i + 2^32 * readU32 data (i+4)

/-- Two's complement interpretation of a bit pattern as a signed 32-bit int. -/
def toInt32 (n : Nat) : Int :=
  if n % 2^32 < 2^31 then (n % 2^32 : Nat) else (n % 2^32 : Nat) - 2^32

/-- Read a little-endian signed 32-bit `int`, as `memcpy` into an `int` does. -/
def readI32 (data : List Nat) (i : Nat) : Int := toInt32 (readU32 data i)

/-- Little-endian encoding of the low 32 bits of `n`. -/
def encodeU32 (n : Nat) : List Nat :=
  [n % 256, n / 2^8 % 256, n / 2^16 % 256, n / 2^24 % 256]

/-- Little-endian encoding of the low 64 bits of `n`. -/
def encodeU64 (n : Nat) : List Nat :=
  [n % 256, n / 2^8 % 256, n / 2^16 % 256, n / 2^24 % 256,
   n / 2^32 % 256, n / 2^40 % 256, n / 2^48 % 256, n / 2^56 % 256]

/-- `strncmp(a, b, fuel) == 0`: byte lists compare equal up to `fuel`
characters, stopping early at a common NUL terminator (C string
comparison semantics).  Missing bytes read as 0 (NUL). -/
def nameMatch : Nat → List Nat → List Nat → Bool
  | 0, _, _ => true
  | n+1, a, b =>
    let x := a.headD 0 % 256
    let y := b.headD 0 % 256
    if x ≠ y then false
    else if x = 0 then true
    else nameMatch n a.tail b.tail

/-- In-place byte transpose `shuffle_bytes(data, nb, size)`: the first
`nb*size` bytes are rewritten so that `out[j*nb+i] = in[i*size+j]`;
bytes beyond `nb*size` are untouched.  (The C routine copies the region
to a scratch buffer and writes the transpose back.) -/
def shuffle_bytes (data : List Nat) (nb size : Nat) : List Nat :=
  (List.range (nb * size)).map (fun k => data.getD ((k % nb) * size + k / nb) 0)
    ++ data.drop (nb * size)

/-- `shuffle_bytes(data + off, nb, size)`: transpose a region at byte
offset `off` of a larger buffer. -/
def shuffleAt (data : List Nat) (off nb size : Nat) : List Nat :=
  data.take off ++ shuffle_bytes (data.drop off) nb size

/-- Result record of `eph_read_tile_header` (the two decoded ints, the
version, and the advanced cursor). -/
structure TileHeaderOut where
  version : Int
  order : Nat
  pix : Int
  data_ofs : Nat
deriving DecidableEq, Repr

/-- `eph_read_tile_header`: read a 4-byte version and an 8-byte NUNIQ
value at the cursor, decode `(order, pix)`, advance the cursor by 12.

The C computes `*order = log2(nuniq / 4) / 2` with the `double`-valued
`log2`; for the integer inputs involved this equals the exact
`Nat.log 2 _ / 2` used here.  The C computes
`*pix = nuniq - 4 * (1 << (2 * (*order)))` in `int` arithmetic: the
shift and product wrap at 32 bits (two's complement; the engine's
targets wrap, ISO C calls the overflow undefined), the difference is
carried out in `uint64_t`, and the store into the `int *pix` truncates
to a signed 32-bit value.  The shift count is masked `% 32` as on
WebAssembly/x86; no theorem below depends on shift counts ≥ 32. -/
def eph_read_tile_header (data : List Nat) (data_ofs : Nat) : TileHeaderOut :=
  let version := readI32 data data_ofs
  let nuniq := readU64 data (data_ofs + 4)
  let order := Nat.log 2 (nuniq / 4) / 2
  let fourPow : Int := toInt32 ((4 * (1 <<< ((2 * order) % 32))) % 2^32)
  let pix : Int := toInt32 ((((nuniq : Int) - fourPow) % (2^64 : Int)).toNat)
  ⟨version, order, pix, data_ofs + 12⟩

/-- `eph_read_compressed_block`: read a 4-byte uncompressed size and a
4-byte compressed size at the cursor, run the external inflate
primitive (`uncompress` from zlib, passed here as a parameter) over the
following `comp_size` bytes with output capacity `size`, and advance
the cursor by `8 + comp_size` (the C advances the cursor before calling
`uncompress`, so the advance happens on failure as well).  Returns the
inflated buffer, or `none` when the primitive reports an error. -/
def eph_read_compressed_block (uncompress : List Nat → Nat → Option (List Nat))
    (data : List Nat) (data_ofs : Nat) : Option (List Nat) × Nat :=
  let size := readU32 data data_ofs
  let comp_size := readU32 data (data_ofs + 4)
  let payload := (data.drop (data_ofs + 8)).take comp_size
  let ofs' := data_ofs + 8 + comp_size
  match uncompress payload size with
  | some ret => (some ret, ofs')
  | none => (none, ofs')

/-- One iteration state of the chunk loop of `eph_load`.  `pos` is the
offset of the moving `data` pointer from the start of the buffer and
`rem` the moving `data_size`, both C `int`s.  Reads outside the buffer
are undefined behaviour, modelled as `none`; fuel exhaustion (the C
loop can fail to progress when a chunk length field is ≤ -12) is also
`none`.  `some 0` is success, `some (-1)` a failed `CHECK`. -/
def loadLoop (data : List Nat) : Int → Int → Nat → Option Int
  | _, _, 0 => none
  | pos, rem, fuel+1 =>
    if rem = 0 then some 0
    else if rem < 8 then some (-1)
    else if pos < 0 ∨ (data.length : Int) < pos + 8 then none
    else
      let len := readI32 data (pos + 4).toNat
      loadLoop data (pos + len + 12) (rem - (len + 12)) fuel

/-- `eph_load(data, data_size, ...)` with `data_size = data.length` (the
caller passes the buffer together with its length).  Checks the 4-byte
magic `"EPHE"` and the 4-byte version against `FILE_VERSION = 2`, then
walks the chunk list; each chunk consumes its signed 32-bit payload
length plus 12 framing bytes.  The chunk callback's return value is
ignored by the C code, so the callback does not appear here.  `some 0`
is success, `some (-1)` a format error (failed `CHECK`), `none`
undefined behaviour / non-termination. -/
def eph_load (data : List Nat) : Option Int :=
  let data_size : Int := data.length
  if data_size < 4 then some (-1)
  else if readBytes data 0 4 ≠ [69, 80, 72, 69] then some (-1)
  else if (data.length : Int) < 8 then none
  else if readI32 data 4 ≠ 2 then some (-1)
  else loadLoop data 8 (data_size - 8) (data.length + 1)

/-- Spec-side chunk-structure predicate, following the specification's
words: chunk records, each holding a 4-byte type tag, a 32-bit
*unsigned* payload length, the payload, and a 4-byte reserved trailer,
must consume the remaining length exactly; a remainder too short for a
chunk header is a format error.  `rem` is the remaining length (the
walk sits at offset `data.length - rem`).  Fuel-exhaustion returns
`false`; the fuel `data.length + 1` used by `ephStructure` never runs
out because every step consumes at least 12 bytes. -/
def chunksOkB (data : List Nat) : Nat → Nat → Bool
  | _, 0 => false
  | rem, fuel+1 =>
    if rem = 0 then true
    else if rem < 8 then false
    else
      let len := readU32 data (data.length - rem + 4)
      if len + 12 ≤ rem then chunksOkB data (rem - (len + 12)) fuel
      else false

/-- Spec-side well-formed container: magic `"EPHE"`, the single supported
version 2, and the chunk records consuming the remaining length
exactly (unsigned payload lengths, per the specification). -/
def ephStructure (data : List Nat) : Prop :=
  8 ≤ data.length ∧ readBytes data 0 4 = [69, 80, 72, 69] ∧
    readU32 data 4 = 2 ∧ chunksOkB data (data.length - 8) (data.length + 1) = true

instance (data : List Nat) : Decidable (ephStructure data) := by
  unfold ephStructure; infer_instance

/-- The degrees-to-radians constant `DD2R`.  Modelled from the spec: the
constant lives in the ERFA header, which is not part of the given
source; the spec calls it "the degrees-to-radians constant".  The C
`double` literal is modelled as the exact rational of its source text;
no theorem depends on its value. -/
def DD2R : Rat := 1745329251994329576923691 / 10^26

/-- The radians-to-degrees constant `DR2D`.  Modelled from the spec, like
`DD2R`; exact rational of the C literal's leading digits, value unused
by the theorems. -/
def DR2D : Rat := 5729577951308232087679815 / 10^23

/-- `eph_convert_f(src_unit, unit, v)`: identity when the requested unit
is the sentinel 0 or equals the source unit; otherwise the four
bit-gated scalar transforms are applied in source order (bit 0:
degrees/radians, bits 1 and 2: a ×60 / ÷60 scale each, bit 3: the
365.25 days/years scale).  `double` arithmetic idealised over `Rat`;
unit codes are C `int`s used only for equality tests and low-bit
tests, so the unsigned `Nat` value is observationally equivalent. -/
def eph_convert_f (src_unit unit : Nat) (v : Rat) : Rat :=
  if unit = 0 ∨ src_unit = unit then v
  else
    let v1 := if src_unit &&& 1 ≠ 0 ∧ unit &&& 1 = 0 then v * DD2R else v
    let v2 := if src_unit &&& 1 = 0 ∧ unit &&& 1 ≠ 0 then v1 * DR2D else v1
    let v3 := if src_unit &&& 2 ≠ 0 ∧ unit &&& 2 = 0 then v2 / 60 else v2
    let v4 := if src_unit &&& 2 = 0 ∧ unit &&& 2 ≠ 0 then v3 * 60 else v3
    let v5 := if src_unit &&& 4 ≠ 0 ∧ unit &&& 4 = 0 then v4 / 60 else v4
    let v6 := if src_unit &&& 4 = 0 ∧ unit &&& 4 ≠ 0 then v5 * 60 else v5
    let v7 := if src_unit &&& 8 ≠ 0 ∧ unit &&& 8 = 0 then v6 * (1461/4) else v6
    let v8 := if src_unit &&& 8 = 0 ∧ unit &&& 8 ≠ 0 then v7 / (1461/4) else v7
    v8

/-- Spec-side transform for bit 0 of the unit codes (degrees↔radians),
stated as one independent transform as the specification describes it. -/
def convStep1 (src_unit unit : Nat) (v : Rat) : Rat :=
  if src_unit &&& 1 ≠ 0 ∧ unit &&& 1 = 0 then v * DD2R
  else if src_unit &&& 1 = 0 ∧ unit &&& 1 ≠ 0 then v * DR2D
  else v

/-- Spec-side transform for bit 1 of the unit codes (a ×60/÷60 scale). -/
def convStep2 (src_unit unit : Nat) (v : Rat) : Rat :=
  if src_unit &&& 2 ≠ 0 ∧ unit &&& 2 = 0 then v / 60
  else if src_unit &&& 2 = 0 ∧ unit &&& 2 ≠ 0 then v * 60
  else v

/-- Spec-side transform for bit 2 of the unit codes (a ×60/÷60 scale). -/
def convStep3 (src_unit unit : Nat) (v : Rat) : Rat :=
  if src_unit &&& 4 ≠ 0 ∧ unit &&& 4 = 0 then v / 60
  else if src_unit &&& 4 = 0 ∧ unit &&& 4 ≠ 0 then v * 60
  else v

/-- Spec-side transform for bit 3 of the unit codes (×365.25/÷365.25,
days↔years). -/
def convStep4 (src_unit unit : Nat) (v : Rat) : Rat :=
  if src_unit &&& 8 ≠ 0 ∧ unit &&& 8 = 0 then v * (1461/4)
  else if src_unit &&& 8 = 0 ∧ unit &&& 8 ≠ 0 then v / (1461/4)
  else v

/-- The two sequential source `if`s handling bit 0 of the unit codes,
exactly as `eph_convert_f` chains them. -/
def seqPair1 (src_unit unit : Nat) (v : Rat) : Rat :=
  let v1 := if src_unit &&& 1 ≠ 0 ∧ unit &&& 1 = 0 then v * DD2R else v
  if src_unit &&& 1 = 0 ∧ unit &&& 1 ≠ 0 then v1 * DR2D else v1

/-- The two sequential source `if`s handling bit 1 of the unit codes. -/
def seqPair2 (src_unit unit : Nat) (v : Rat) : Rat :=
  let v1 := if src_unit &&& 2 ≠ 0 ∧ unit &&& 2 = 0 then v / 60 else v
  if src_unit &&& 2 = 0 ∧ unit &&& 2 ≠ 0 then v1 * 60 else v1

/-- The two sequential source `if`s handling bit 2 of the unit codes. -/
def seqPair3 (src_unit unit : Nat) (v : Rat) : Rat :=
  let v1 := if src_unit &&& 4 ≠ 0 ∧ unit &&& 4 = 0 then v / 60 else v
  if src_unit &&& 4 = 0 ∧ unit &&& 4 ≠ 0 then v1 * 60 else v1

/-- The two sequential source `if`s handling bit 3 of the unit codes. -/
def seqPair4 (src_unit unit : Nat) (v : Rat) : Rat :=
  let v1 := if src_unit &&& 8 ≠ 0 ∧ unit &&& 8 = 0 then v * (1461/4) else v
  if src_unit &&& 8 = 0 ∧ unit &&& 8 ≠ 0 then v1 / (1461/4) else v1

/-- Exact value of an IEEE-754 single-precision bit pattern, as the row
decoder's `memcpy` into a `float` produces it.  Exponent 255 (infinity
and NaN, which have no rational value) is mapped to 0; no theorem
depends on that choice because both sides of every statement go
through this same function. -/
def decodeF32 (bits : Nat) : Rat :=
  let b : Nat := bits % 2^32
  let s : Nat := b / 2^31
  let e : Nat := b / 2^23 % 2^8
  let m : Nat := b % 2^23
  let mag : Rat :=
    if e = 0 then (m : Rat) / 2^149
    else if e = 255 then 0
    else ((2^23 + m : Nat) : Rat) * 2^e / 2^150
  if s = 1 then -mag else mag

/-- The caller-declared column record `eph_table_column_t` (declared in
`eph-file.h`, whose field set is visible from the uses in the given
source).  All numeric fields are C `int`s; they are kept as the
unsigned `Nat` bit patterns, observationally equivalent for the
equality tests, zero tests, offsets and sizes the code performs
(negative offsets/sizes would be undefined behaviour in C and are
outside every claim's domain).  `type` is the column's type-tag
character and `name` its 4-byte name. -/
structure eph_table_column_t where
  name : List Nat
  type : Nat
  unit : Nat
  size : Nat
  row_size : Nat
  src_unit : Nat
  start : Nat
deriving DecidableEq, Inhabited, Repr

/-- Return discriminator of `eph_read_table_prepare`: the C function
returns the row count on success and `-1` from two distinct error
sites (`LOG_E("Wrong type")` and `LOG_E("Cannot find column ...")`);
the constructors record which site produced the error. -/
inductive PrepRet where
  | ok (nrow : Nat)
  | errType
  | errMissing
deriving DecidableEq, Repr

/-- Full outcome of `eph_read_table_prepare`: return value, the (possibly
partially updated) caller column array, the (possibly de-shuffled)
data buffer, and the cursor. -/
structure PrepResult where
  ret : PrepRet
  columns : List eph_table_column_t
  data : List Nat
  data_ofs : Nat
deriving DecidableEq, Repr

/-- Effective byte size of a caller-declared column in the legacy
(version < 3) path: the declared size, or the default for its type tag
when no size is declared (4 for `'i'`/`'f'`, 8 for `'Q'`). -/
def effSize (c : eph_table_column_t) : Nat :=
  if c.size = 0 then
    (if c.type = 105 ∨ c.type = 102 then 4 else if c.type = 81 then 8 else 0)
  else c.size

/-- Legacy-path column resolution: in declaration order, set the row
stride to the caller's declared row size, the start offset to the
running sum of effective sizes, and the source unit to the caller's
requested unit. -/
def legacyCols (rs : Nat) : Nat → List eph_table_column_t → List eph_table_column_t
  | _, [] => []
  | start, c :: cs =>
    { c with row_size := rs, start := start, src_unit := c.unit, size := effSize c }
      :: legacyCols rs (start + effSize c) cs

/-- Name of the `i`-th on-disk column descriptor of a version ≥ 3 table. -/
def diskName (data : List Nat) (i : Nat) : List Nat := readBytes data (16 + i * 20) 4

/-- Type tag of the `i`-th on-disk column descriptor: the C compares only
the first byte of the 4-byte type field (`*type`). -/
def diskType (data : List Nat) (i : Nat) : Nat := readByte data (20 + i * 20)

/-- Inner search of the matching loop: index of the first caller column
whose name `strncmp`-matches `nm` (the C `for (j = ...) ... break`). -/
def findColIdx (nm : List Nat) : List eph_table_column_t → Option Nat
  | [] => none
  | c :: cs =>
    if nameMatch 4 nm c.name then some 0
    else (findColIdx nm cs).map (· + 1)

/-- Field update performed when an on-disk column matches a caller
column: copy the table row stride and the descriptor's source unit,
start offset and size into the caller's record. -/
def updateCol (c : eph_table_column_t) (rs su st sz : Nat) : eph_table_column_t :=
  { c with row_size := rs, src_unit := su, start := st, size := sz }

/-- The on-disk column matching loop of `eph_read_table_prepare`
(version ≥ 3).  `k` counts the descriptors still to process and `i` is
the current descriptor index.  Returns `(false, cols)` on the
type-mismatch early return (with the updates already applied to
`cols`), `(true, cols)` when the loop completes. -/
def prepLoop (data : List Nat) (rs : Nat) :
    Nat → Nat → List eph_table_column_t → Bool × List eph_table_column_t
  | 0, _, cols => (true, cols)
  | k+1, i, cols =>
    match findColIdx (diskName data i) cols with
    | none => prepLoop data rs k (i+1) cols
    | some j =>
      let c := cols.getD j default
      if c.type ≠ diskType data i then (false, cols)
      else
        prepLoop data rs k (i+1)
          (cols.set j (updateCol c rs (readU32 data (24 + i * 20))
            (readU32 data (28 + i * 20)) (readU32 data (32 + i * 20))))

/-- `eph_read_table_prepare`.  `none` models the `assert(*data_ofs == 0)`
failing.  Version < 3 (legacy): de-interleave the whole block with
`(nb = row_size, size = data_size / row_size)` unless the row size is
exactly 104, resolve the columns in declaration order, and return
`data_size / row_size` (for `row_size = 0` the C division is undefined
behaviour; the model returns the Lean convention `0`, outside every
claim's domain).  Version ≥ 3: read the table header, run the matching
loop, fail if a caller column was left with the zero row-stride
sentinel, de-interleave the row region when the shuffled flag is set,
and advance the cursor past the schema. -/
def eph_read_table_prepare (version : Int) (data : List Nat) (data_size : Nat)
    (data_ofs : Nat) (row_size : Nat) (columns : List eph_table_column_t) :
    Option PrepResult :=
  if data_ofs ≠ 0 then none
  else if version < 3 then
    let n_row := data_size / row_size
    let data' := if row_size ≠ 104 then shuffle_bytes data row_size n_row else data
    some ⟨.ok n_row, legacyCols row_size 0 columns, data', data_ofs⟩
  else
    let flags := readU32 data 0
    let rs := readU32 data 4
    let n_col := readU32 data 8
    let n_row := readU32 data 12
    match prepLoop data rs n_col 0 columns with
    | (false, cols') => some ⟨.errType, cols', data, data_ofs⟩
    | (true, cols') =>
      if cols'.all (fun c => c.row_size ≠ 0) then
        let data' := if flags &&& 1 ≠ 0 then shuffleAt data (16 + n_col * 20) rs n_row
                     else data
        some ⟨.ok n_row, cols', data', data_ofs + 16 + n_col * 20⟩
      else some ⟨.errMissing, cols', data, data_ofs⟩

/-- A decoded row field, one per caller-supplied variadic output slot. -/
inductive RowVal where
  | intVal (v : Int)
  | floatVal (v : Rat)
  | qVal (v : Nat)
  | bytesVal (bs : List Nat)
deriving DecidableEq, Repr

/-- Decode one column of a row at row base `base`: a 4-byte signed int
for `'i'`, a unit-converted 4-byte float for `'f'`, an 8-byte unsigned
for `'Q'`, `size` raw bytes for `'s'`.  A type tag outside the switch
writes no output slot (`none`). -/
def readCol (data : List Nat) (base : Nat) (c : eph_table_column_t) : Option RowVal :=
  if c.type = 105 then some (.intVal (readI32 data (base + c.start)))
  else if c.type = 102 then
    some (.floatVal (eph_convert_f c.src_unit c.unit
      (decodeF32 (readU32 data (base + c.start)))))
  else if c.type = 81 then some (.qVal (readU64 data (base + c.start)))
  else if c.type = 115 then some (.bytesVal (readBytes data (base + c.start) c.size))
  else none

/-- `eph_read_table_row`: decode one row into the caller's output slots
in declared column order and advance the cursor by the first column's
resolved row stride.  `none` models the `assert(nb_columns > 0)`
failing. -/
def eph_read_table_row (data : List Nat) (data_ofs : Nat)
    (columns : List eph_table_column_t) : Option (List RowVal × Nat) :=
  if columns.isEmpty then none
  else some (columns.filterMap (readCol data data_ofs),
    data_ofs + (columns.headD default).row_size)

/-- Claim-side predicate: on-disk column `m` of a version ≥ 3 table
matches some caller-declared column by name but carries a different
type tag. -/
def diskMismatch (data : List Nat) (cols : List eph_table_column_t) (m : Nat) : Prop :=
  ∃ j, j < cols.length ∧
    nameMatch 4 (diskName data m) ((cols.getD j default).name) = true ∧
    (cols.getD j default).type ≠ diskType data m

/-- Claim-side predicate: caller column `j` is found by name among the
first `n` on-disk columns with an equal type tag. -/
def colFound (data : List Nat) (cols : List eph_table_column_t) (n j : Nat) : Prop :=
  ∃ m, m < n ∧ nameMatch 4 (diskName data m) ((cols.getD j default).name) = true ∧
    (cols.getD j default).type = diskType data m


/-! ### Helper lemmas -/

theorem getD_set_self (l : List eph_table_column_t) (j : Nat) (a d : eph_table_column_t)
    (h : j < l.length) : (l.set j a).getD j d = a := by
  rw [List.getD_eq_getElem _ _ (by simpa using h)]
  simp

theorem getD_set_ne (l : List eph_table_column_t) (j j' : Nat) (a d : eph_table_column_t)
    (h : j ≠ j') : (l.set j a).getD j' d = l.getD j' d := by
  by_cases h' : j' < l.length
  · rw [List.getD_eq_getElem _ _ (by simpa using h'), List.getD_eq_getElem _ _ h']
    exact List.getElem_set_ne h _
  · rw [List.getD_eq_default _ _ (by simp; omega), List.getD_eq_default _ _ (by omega)]

theorem readByte_append (pre l : List Nat) (i k : Nat) (h : i = pre.length + k) :
    readByte (pre ++ l) i = readByte l k := by
  subst h
  unfold readByte
  rw [List.getD_append_right _ _ _ _ (Nat.le_add_right _ _)]
  simp

theorem readU32_append (pre l : List Nat) (k : Nat) :
    readU32 (pre ++ l) (pre.length + k) = readU32 l k := by
  unfold readU32
  rw [readByte_append pre l _ k rfl, readByte_append pre l _ (k+1) (by omega),
    readByte_append pre l _ (k+2) (by omega), readByte_append pre l _ (k+3) (by omega)]

theorem readU64_append (pre l : List Nat) (k : Nat) :
    readU64 (pre ++ l) (pre.length + k) = readU64 l k := by
  unfold readU64
  rw [readU32_append pre l k]
  have h : pre.length + k + 4 = pre.length + (k + 4) := by omega
  rw [h, readU32_append pre l (k+4)]

theorem readU32_encodeU32 (n : Nat) (rest : List Nat) :
    readU32 (encodeU32 n ++ rest) 0 = n % 2^32 := by
  simp [readU32, readByte, encodeU32]
  omega

theorem readU64_encodeU64 (n : Nat) (rest : List Nat) :
    readU64 (encodeU64 n ++ rest) 0 = n % 2^64 := by
  simp [readU64, readU32, readByte, encodeU64]
  omega

/-! ### Claims -/

/-- C9: `eph_read_table_prepare` has the undocumented precondition
`*data_ofs == 0` (the `assert` at its head): it traps — modelled as
`none` — exactly when called with a nonzero cursor offset, so unlike
the other readers it cannot start parsing at a nonzero position. -/
theorem eph_read_table_prepare_offset_assert (version : Int) (data : List Nat)
    (data_size data_ofs row_size : Nat) (columns : List eph_table_column_t) :
    eph_read_table_prepare version data data_size data_ofs row_size columns = none
      ↔ data_ofs ≠ 0 := by
  rcases eq_or_ne data_ofs 0 with h | h
  · subst h
    simp only [eph_read_table_prepare, ne_eq, not_true_eq_false, if_false, reduceIte]
    constructor
    · intro hcon
      split at hcon
      · simp at hcon
      · rcases hp : prepLoop data (readU32 data 4) (readU32 data 8) 0 columns with ⟨b, cols'⟩
        rw [hp] at hcon
        cases b <;> simp at hcon
        split at hcon <;> simp at hcon
    · intro hcon; exact hcon.elim
  · simp [eph_read_table_prepare, h]

/-- C10: `eph_read_table_prepare` is not atomic on failure.  Concrete
version-3 table with one on-disk column `"mag"` and two caller columns
`"mag"`, `"pos"`: the call returns the missing-column error for
`"pos"`, yet the caller's `"mag"` record has already received the
table's row stride (12) and the descriptor's source unit (3), offset
(4) and size (4), so the caller's column array differs from its
pre-call state. -/
theorem eph_read_table_prepare_not_atomic :
    eph_read_table_prepare 3
      [0,0,0,0, 12,0,0,0, 1,0,0,0, 7,0,0,0,
       109,97,103,0, 102,0,0,0, 3,0,0,0, 4,0,0,0, 4,0,0,0] 36 0 0
      [⟨[109,97,103,0], 102, 0, 0, 0, 0, 0⟩, ⟨[112,111,115,0], 105, 0, 0, 0, 0, 0⟩]
    = some ⟨.errMissing,
        [⟨[109,97,103,0], 102, 0, 4, 12, 3, 4⟩, ⟨[112,111,115,0], 105, 0, 0, 0, 0, 0⟩],
        [0,0,0,0, 12,0,0,0, 1,0,0,0, 7,0,0,0,
         109,97,103,0, 102,0,0,0, 3,0,0,0, 4,0,0,0, 4,0,0,0], 0⟩
    ∧ ([⟨[109,97,103,0], 102, 0, 4, 12, 3, 4⟩, ⟨[112,111,115,0], 105, 0, 0, 0, 0, 0⟩]
        : List eph_table_column_t)
      ≠ [⟨[109,97,103,0], 102, 0, 0, 0, 0, 0⟩, ⟨[112,111,115,0], 105, 0, 0, 0, 0, 0⟩] := by
  constructor
  · decide
  · decide

theorem shuffle_bytes_length (data : List Nat) (nb size : Nat)
    (h : nb * size ≤ data.length) :
    (shuffle_bytes data nb size).length = data.length := by
  simp [shuffle_bytes]
  omega

theorem shuffle_bytes_getD (data : List Nat) (nb size k : Nat) (hk : k < nb * size) :
    (shuffle_bytes data nb size).getD k 0 = data.getD ((k % nb) * size + k / nb) 0 := by
  unfold shuffle_bytes
  rw [List.getD_append _ _ _ _ (by simpa using hk),
    List.getD_eq_getElem _ _ (by simpa using hk)]
  simp

/-- C4: the transpose codec.  For `nb, size ≥ 1` and a buffer of length
`nb*size`, `shuffle_bytes` rewrites the buffer so that
`out[j*nb+i] = in[i*size+j]`, and applying it twice with swapped
dimensions restores the original buffer exactly. -/
theorem shuffle_bytes_transpose (data : List Nat) (nb size : Nat)
    (h1 : 1 ≤ nb) (h2 : 1 ≤ size) (h3 : data.length = nb * size) :
    (∀ i j, i < nb → j < size →
      (shuffle_bytes data nb size).getD (j * nb + i) 0 = data.getD (i * size + j) 0)
    ∧ shuffle_bytes (shuffle_bytes data nb size) size nb = data := by
  constructor
  · intro i j hi hj
    have hk : j * nb + i < nb * size := by
      calc j * nb + i < j * nb + nb := by omega
        _ = (j + 1) * nb := by ring
        _ ≤ size * nb := Nat.mul_le_mul_right nb (by omega)
        _ = nb * size := Nat.mul_comm _ _
    rw [shuffle_bytes_getD data nb size _ hk]
    have hmod : (j * nb + i) % nb = i := by
      rw [Nat.add_comm, Nat.add_mul_mod_self_right]
      exact Nat.mod_eq_of_lt hi
    have hdiv : (j * nb + i) / nb = j := by
      rw [Nat.add_comm, Nat.add_mul_div_right _ _ (by omega : 0 < nb),
        Nat.div_eq_of_lt hi]
      omega
    rw [hmod, hdiv]
  · have hlen1 : (shuffle_bytes data nb size).length = data.length :=
      shuffle_bytes_length data nb size (by omega)
    have hlen2 : (shuffle_bytes (shuffle_bytes data nb size) size nb).length
        = data.length := by
      rw [shuffle_bytes_length _ size nb (by rw [hlen1, h3, Nat.mul_comm]), hlen1]
    apply List.ext_getElem hlen2
    intro k hk1 hk2
    have hkn : k < nb * size := by omega
    have hks : k < size * nb := by rw [Nat.mul_comm]; exact hkn
    have hdivk : k / size < nb := (Nat.div_lt_iff_lt_mul (by omega)).2 hkn
    have hmodk : k % size < size := Nat.mod_lt _ (by omega)
    rw [← List.getD_eq_getElem _ 0 hk1, ← List.getD_eq_getElem _ 0 hk2]
    rw [shuffle_bytes_getD _ size nb k (by omega)]
    have hm : (k % size) * nb + k / size < nb * size := by
      calc (k % size) * nb + k / size < (k % size) * nb + nb := by omega
        _ = (k % size + 1) * nb := by ring
        _ ≤ size * nb := Nat.mul_le_mul_right nb (by omega)
        _ = nb * size := Nat.mul_comm _ _
    rw [shuffle_bytes_getD data nb size _ hm]
    have hmod2 : ((k % size) * nb + k / size) % nb = k / size := by
      rw [Nat.add_comm, Nat.add_mul_mod_self_right]
      exact Nat.mod_eq_of_lt hdivk
    have hdiv2 : ((k % size) * nb + k / size) / nb = k % size := by
      rw [Nat.add_comm, Nat.add_mul_div_right _ _ (by omega : 0 < nb),
        Nat.div_eq_of_lt hdivk]
      omega
    rw [hmod2, hdiv2]
    congr 1
    rw [Nat.mul_comm]
    exact Nat.div_add_mod k size

/-- C4 witness: the theorem applied to the concrete 2×3 buffer
`[1,2,3,4,5,6]`. -/
theorem shuffle_bytes_transpose_witness :
    (1 ≤ 2 ∧ 1 ≤ 3 ∧ ([1,2,3,4,5,6] : List Nat).length = 2 * 3)
    ∧ ((∀ i j, i < 2 → j < 3 →
        (shuffle_bytes [1,2,3,4,5,6] 2 3).getD (j * 2 + i) 0
          = ([1,2,3,4,5,6] : List Nat).getD (i * 3 + j) 0)
      ∧ shuffle_bytes (shuffle_bytes [1,2,3,4,5,6] 2 3) 3 2 = [1,2,3,4,5,6]) :=
  ⟨⟨by decide, by decide, by decide⟩,
    shuffle_bytes_transpose [1,2,3,4,5,6] 2 3 (by decide) (by decide) (by decide)⟩

/-- C6: the compressed block reader.  Under the spec's contract for the
inflate primitive (success yields exactly the requested capacity), the
reader always advances the cursor by `8 +` the declared compressed
size — also on failure —, its result is exactly the primitive's result
on the following compressed span (so it succeeds iff inflate succeeds,
returns the inflated payload, and never returns a partial buffer as
success), and a successful buffer has exactly the declared
uncompressed size. -/
theorem eph_read_compressed_block_spec
    (uncompress : List Nat → Nat → Option (List Nat)) (data : List Nat) (data_ofs : Nat)
    (hc : ∀ src cap out, uncompress src cap = some out → out.length = cap) :
    (eph_read_compressed_block uncompress data data_ofs).2
      = data_ofs + 8 + readU32 data (data_ofs + 4)
    ∧ (eph_read_compressed_block uncompress data data_ofs).1
      = uncompress ((data.drop (data_ofs + 8)).take (readU32 data (data_ofs + 4)))
          (readU32 data data_ofs)
    ∧ (∀ out, (eph_read_compressed_block uncompress data data_ofs).1 = some out →
        out.length = readU32 data data_ofs) := by
  unfold eph_read_compressed_block
  rcases h : uncompress ((data.drop (data_ofs + 8)).take (readU32 data (data_ofs + 4)))
    (readU32 data data_ofs) with _ | ret
  · simp [h]
  · simp only [h, Option.some.injEq, true_and]
    intro out hout
    subst hout
    exact hc _ _ _ h

/-- C6 witness: the theorem applied to a concrete buffer declaring
uncompressed size 2 and compressed size 1, with a concrete inflate
primitive satisfying the contract. -/
theorem eph_read_compressed_block_spec_witness :
    (∀ src cap out,
      (fun (_ : List Nat) (cap : Nat) => some (List.replicate cap 7)) src cap = some out →
        out.length = cap)
    ∧ ((eph_read_compressed_block (fun _ cap => some (List.replicate cap 7))
          [2,0,0,0, 1,0,0,0, 9] 0).2
        = 0 + 8 + readU32 [2,0,0,0, 1,0,0,0, 9] (0 + 4)
      ∧ (eph_read_compressed_block (fun _ cap => some (List.replicate cap 7))
          [2,0,0,0, 1,0,0,0, 9] 0).1
        = (fun (_ : List Nat) (cap : Nat) => some (List.replicate cap 7))
            ((([2,0,0,0, 1,0,0,0, 9] : List Nat).drop (0 + 8)).take
              (readU32 [2,0,0,0, 1,0,0,0, 9] (0 + 4)))
            (readU32 [2,0,0,0, 1,0,0,0, 9] 0)
      ∧ (∀ out, (eph_read_compressed_block (fun _ cap => some (List.replicate cap 7))
          [2,0,0,0, 1,0,0,0, 9] 0).1 = some out →
            out.length = readU32 [2,0,0,0, 1,0,0,0, 9] 0)) :=
  ⟨fun _ cap out h => by
      simp only [Option.some.injEq] at h
      subst h
      exact List.length_replicate _ _,
    eph_read_compressed_block_spec (fun _ cap => some (List.replicate cap 7))
      [2,0,0,0, 1,0,0,0, 9] 0
      (fun _ cap out h => by
        simp only [Option.some.injEq] at h
        subst h
        exact List.length_replicate _ _)⟩

theorem seqPair1_eq_convStep1 (src_unit unit : Nat) (v : Rat) :
    seqPair1 src_unit unit v = convStep1 src_unit unit v := by
  unfold seqPair1 convStep1
  by_cases h1 : src_unit &&& 1 ≠ 0 ∧ unit &&& 1 = 0 <;>
    by_cases h2 : src_unit &&& 1 = 0 ∧ unit &&& 1 ≠ 0 <;>
      simp only [h1, h2, if_true, if_false, reduceIte] <;> tauto

theorem seqPair2_eq_convStep2 (src_unit unit : Nat) (v : Rat) :
    seqPair2 src_unit unit v = convStep2 src_unit unit v := by
  unfold seqPair2 convStep2
  by_cases h1 : src_unit &&& 2 ≠ 0 ∧ unit &&& 2 = 0 <;>
    by_cases h2 : src_unit &&& 2 = 0 ∧ unit &&& 2 ≠ 0 <;>
      simp only [h1, h2, if_true, if_false, reduceIte] <;> tauto

theorem seqPair3_eq_convStep3 (src_unit unit : Nat) (v : Rat) :
    seqPair3 src_unit unit v = convStep3 src_unit unit v := by
  unfold seqPair3 convStep3
  by_cases h1 : src_unit &&& 4 ≠ 0 ∧ unit &&& 4 = 0 <;>
    by_cases h2 : src_unit &&& 4 = 0 ∧ unit &&& 4 ≠ 0 <;>
      simp only [h1, h2, if_true, if_false, reduceIte] <;> tauto

theorem seqPair4_eq_convStep4 (src_unit unit : Nat) (v : Rat) :
    seqPair4 src_unit unit v = convStep4 src_unit unit v := by
  unfold seqPair4 convStep4
  by_cases h1 : src_unit &&& 8 ≠ 0 ∧ unit &&& 8 = 0 <;>
    by_cases h2 : src_unit &&& 8 = 0 ∧ unit &&& 8 ≠ 0 <;>
      simp only [h1, h2, if_true, if_false, reduceIte] <;> tauto

/-- C8: the unit converter returns the value unchanged when the
requested unit is the sentinel 0 or equals the source unit, and
otherwise equals the composition, in the fixed order bit 0 then 1 then
2 then 3, of the four independent bit-gated transforms
(degrees↔radians, two ×60/÷60 scales, and the ×365.25/÷365.25 scale). -/
theorem eph_convert_f_bitflag_spec (src_unit unit : Nat) (v : Rat) :
    eph_convert_f src_unit unit v =
      if unit = 0 ∨ src_unit = unit then v
      else convStep4 src_unit unit (convStep3 src_unit unit
        (convStep2 src_unit unit (convStep1 src_unit unit v))) := by
  have h : eph_convert_f src_unit unit v =
      if unit = 0 ∨ src_unit = unit then v
      else seqPair4 src_unit unit (seqPair3 src_unit unit
        (seqPair2 src_unit unit (seqPair1 src_unit unit v))) := rfl
  rw [h, seqPair1_eq_convStep1, seqPair2_eq_convStep2, seqPair3_eq_convStep3,
    seqPair4_eq_convStep4]

theorem readCol_eq_some (data : List Nat) (base : Nat) (c : eph_table_column_t)
    (h : c.type = 105 ∨ c.type = 102 ∨ c.type = 81 ∨ c.type = 115) :
    readCol data base c = some (
      if c.type = 105 then RowVal.intVal (readI32 data (base + c.start))
      else if c.type = 102 then
        RowVal.floatVal (eph_convert_f c.src_unit c.unit
          (decodeF32 (readU32 data (base + c.start))))
      else if c.type = 81 then RowVal.qVal (readU64 data (base + c.start))
      else RowVal.bytesVal (readBytes data (base + c.start) c.size)) := by
  rcases h with h | h | h | h <;> simp [readCol, h]

/-- C5: the row decoder.  For a nonempty resolved column list whose type
tags are all known, it outputs, for each caller-declared column in
declared order, the value read at `row base + start` — a 4-byte signed
int for `'i'`, an 8-byte unsigned for `'Q'`, `size` raw bytes for
`'s'`, and for `'f'` the 4-byte float passed through the unit
converter with (source unit, requested unit) — and advances the cursor
by exactly the first column's resolved row stride. -/
theorem eph_read_table_row_decodes (data : List Nat) (data_ofs : Nat)
    (columns : List eph_table_column_t) (hne : columns ≠ [])
    (htypes : ∀ c ∈ columns,
      c.type = 105 ∨ c.type = 102 ∨ c.type = 81 ∨ c.type = 115) :
    eph_read_table_row data data_ofs columns
      = some (columns.map (fun c =>
          if c.type = 105 then RowVal.intVal (readI32 data (data_ofs + c.start))
          else if c.type = 102 then
            RowVal.floatVal (eph_convert_f c.src_unit c.unit
              (decodeF32 (readU32 data (data_ofs + c.start))))
          else if c.type = 81 then RowVal.qVal (readU64 data (data_ofs + c.start))
          else RowVal.bytesVal (readBytes data (data_ofs + c.start) c.size)),
        data_ofs + (columns.headD default).row_size) := by
  have hmap : ∀ (cols : List eph_table_column_t),
      (∀ c ∈ cols, c.type = 105 ∨ c.type = 102 ∨ c.type = 81 ∨ c.type = 115) →
      cols.filterMap (readCol data data_ofs) = cols.map (fun c =>
        if c.type = 105 then RowVal.intVal (readI32 data (data_ofs + c.start))
        else if c.type = 102 then
          RowVal.floatVal (eph_convert_f c.src_unit c.unit
            (decodeF32 (readU32 data (data_ofs + c.start))))
        else if c.type = 81 then RowVal.qVal (readU64 data (data_ofs + c.start))
        else RowVal.bytesVal (readBytes data (data_ofs + c.start) c.size)) := by
    intro cols
    induction cols with
    | nil => intro _; rfl
    | cons c cs ih =>
      intro ht
      rw [List.filterMap_cons, readCol_eq_some data data_ofs c (ht c (by simp))]
      simp only [List.map_cons]
      congr 1
      exact ih (fun c' hc' => ht c' (by simp [hc']))
  unfold eph_read_table_row
  rw [if_neg (by simpa [List.isEmpty_iff] using hne)]
  rw [hmap columns htypes]

/-- C5 witness: the theorem applied to a one-column `'i'` schema with
start offset 2 and row stride 12 over a concrete 12-byte row. -/
theorem eph_read_table_row_decodes_witness :
    (([⟨[109,97,103,0], 105, 0, 4, 12, 0, 2⟩] : List eph_table_column_t) ≠ []
      ∧ ∀ c ∈ ([⟨[109,97,103,0], 105, 0, 4, 12, 0, 2⟩] : List eph_table_column_t),
          c.type = 105 ∨ c.type = 102 ∨ c.type = 81 ∨ c.type = 115)
    ∧ eph_read_table_row [0,0,10,0,0,0,0,0,0,0,0,0] 0
        [⟨[109,97,103,0], 105, 0, 4, 12, 0, 2⟩]
      = some (([⟨[109,97,103,0], 105, 0, 4, 12, 0, 2⟩] :
            List eph_table_column_t).map (fun c =>
          if c.type = 105 then
            RowVal.intVal (readI32 [0,0,10,0,0,0,0,0,0,0,0,0] (0 + c.start))
          else if c.type = 102 then
            RowVal.floatVal (eph_convert_f c.src_unit c.unit
              (decodeF32 (readU32 [0,0,10,0,0,0,0,0,0,0,0,0] (0 + c.start))))
          else if c.type = 81 then
            RowVal.qVal (readU64 [0,0,10,0,0,0,0,0,0,0,0,0] (0 + c.start))
          else RowVal.bytesVal
            (readBytes [0,0,10,0,0,0,0,0,0,0,0,0] (0 + c.start) c.size)),
        0 + (([⟨[109,97,103,0], 105, 0, 4, 12, 0, 2⟩] :
          List eph_table_column_t).headD default).row_size) :=
  ⟨⟨by decide, by decide⟩,
    eph_read_table_row_decodes [0,0,10,0,0,0,0,0,0,0,0,0] 0
      [⟨[109,97,103,0], 105, 0, 4, 12, 0, 2⟩] (by decide) (by decide)⟩

theorem legacyCols_length (rs : Nat) :
    ∀ (cols : List eph_table_column_t) (start : Nat),
      (legacyCols rs start cols).length = cols.length := by
  intro cols
  induction cols with
  | nil => intro start; rfl
  | cons c cs ih => intro start; simp [legacyCols, ih]

theorem legacyCols_getD (rs : Nat) :
    ∀ (cols : List eph_table_column_t) (start i : Nat), i < cols.length →
      (legacyCols rs start cols).getD i default
        = { cols.getD i default with
            row_size := rs,
            src_unit := (cols.getD i default).unit,
            size := effSize (cols.getD i default),
            start := start + ((cols.take i).map effSize).sum } := by
  intro cols
  induction cols with
  | nil => intro start i hi; simp at hi
  | cons c cs ih =>
    intro start i hi
    cases i with
    | zero => simp [legacyCols]
    | succ i =>
      have hi' : i < cs.length := by simpa using hi
      show (legacyCols rs (start + effSize c) cs).getD i default = _
      rw [ih (start + effSize c) i hi']
      simp only [List.getD_cons_succ, List.take_succ_cons, List.map_cons, List.sum_cons]
      congr 1
      omega

/-- C7: the legacy (version < 3) path of `eph_read_table_prepare`
resolves the caller columns in declaration order — row stride is the
caller's declared row size, source unit equals the requested unit,
sizes default to 4 for `'i'`/`'f'` and 8 for `'Q'` when undeclared,
offsets are the running sum of effective sizes —, returns
`data_size / row_size` as the row count, and de-interleaves the whole
block with `(nb = row size, size = row count)` unless the row size is
exactly 104, in which case the data bytes are left untouched. -/
theorem eph_read_table_prepare_legacy_spec (version : Int) (data : List Nat)
    (data_size row_size : Nat) (columns : List eph_table_column_t)
    (hv : version < 3) (hrs : 1 ≤ row_size) :
    eph_read_table_prepare version data data_size 0 row_size columns
      = some ⟨.ok (data_size / row_size), legacyCols row_size 0 columns,
          (if row_size = 104 then data
           else shuffle_bytes data row_size (data_size / row_size)), 0⟩
    ∧ (legacyCols row_size 0 columns).length = columns.length
    ∧ ∀ i, i < columns.length →
        (legacyCols row_size 0 columns).getD i default
          = { columns.getD i default with
              row_size := row_size,
              src_unit := (columns.getD i default).unit,
              size := effSize (columns.getD i default),
              start := ((columns.take i).map effSize).sum } := by
  refine ⟨?_, legacyCols_length row_size columns 0, ?_⟩
  · unfold eph_read_table_prepare
    rw [if_neg (by simp), if_pos hv]
    rcases eq_or_ne row_size 104 with h | h
    · simp [h]
    · simp [h]
  · intro i hi
    rw [legacyCols_getD row_size columns 0 i hi]
    simp

/-- C7 witness: the theorem applied to a concrete legacy table of two
4-byte rows with one declared column. -/
theorem eph_read_table_prepare_legacy_spec_witness :
    ((2 : Int) < 3 ∧ 1 ≤ 4)
    ∧ (eph_read_table_prepare 2 [1,2,3,4,5,6,7,8] 8 0 4
          [⟨[109,97,103,0], 102, 0, 0, 0, 0, 0⟩]
        = some ⟨.ok (8 / 4), legacyCols 4 0 [⟨[109,97,103,0], 102, 0, 0, 0, 0, 0⟩],
            (if 4 = 104 then [1,2,3,4,5,6,7,8]
             else shuffle_bytes [1,2,3,4,5,6,7,8] 4 (8 / 4)), 0⟩
      ∧ (legacyCols 4 0 [⟨[109,97,103,0], 102, 0, 0, 0, 0, 0⟩]).length
          = ([⟨[109,97,103,0], 102, 0, 0, 0, 0, 0⟩] : List eph_table_column_t).length
      ∧ ∀ i, i < ([⟨[109,97,103,0], 102, 0, 0, 0, 0, 0⟩] :
            List eph_table_column_t).length →
          (legacyCols 4 0 [⟨[109,97,103,0], 102, 0, 0, 0, 0, 0⟩]).getD i default
            = { ([⟨[109,97,103,0], 102, 0, 0, 0, 0, 0⟩] :
                  List eph_table_column_t).getD i default with
                row_size := 4,
                src_unit := (([⟨[109,97,103,0], 102, 0, 0, 0, 0, 0⟩] :
                  List eph_table_column_t).getD i default).unit,
                size := effSize (([⟨[109,97,103,0], 102, 0, 0, 0, 0, 0⟩] :
                  List eph_table_column_t).getD i default),
                start := ((([⟨[109,97,103,0], 102, 0, 0, 0, 0, 0⟩] :
                  List eph_table_column_t).take i).map effSize).sum }) :=
  ⟨⟨by decide, by decide⟩,
    eph_read_table_prepare_legacy_spec 2 [1,2,3,4,5,6,7,8] 8 4
      [⟨[109,97,103,0], 102, 0, 0, 0, 0, 0⟩] (by decide) (by decide)⟩

theorem readU32_append' (pre l : List Nat) (i k : Nat) (h : i = pre.length + k) :
    readU32 (pre ++ l) i = readU32 l k := by
  subst h
  exact readU32_append pre l k

theorem readU64_append' (pre l : List Nat) (i k : Nat) (h : i = pre.length + k) :
    readU64 (pre ++ l) i = readU64 l k := by
  subst h
  exact readU64_append pre l k

theorem toInt32_small (n : Nat) (h : n < 2^31) : toInt32 n = n := by
  unfold toInt32
  rw [Nat.mod_eq_of_lt (by omega)]
  rw [if_pos h]

theorem toInt32_mod32 (n : Nat) : toInt32 (n % 2^32) = toInt32 n := by
  unfold toInt32
  rw [Nat.mod_mod_of_dvd n dvd_rfl]

theorem tileHeader_order_eq (data : List Nat) (data_ofs : Nat) :
    (eph_read_tile_header data data_ofs).order
      = Nat.log 2 (readU64 data (data_ofs + 4) / 4) / 2 := rfl

theorem tileHeader_pix_eq (data : List Nat) (data_ofs : Nat) :
    (eph_read_tile_header data data_ofs).pix
      = toInt32 ((((readU64 data (data_ofs + 4) : Int) -
          toInt32 ((4 * (1 <<< ((2 * (Nat.log 2 (readU64 data (data_ofs + 4) / 4) / 2)) % 32))) % 2^32)) % (2^64 : Int)).toNat) := rfl

theorem eph_read_tile_header_eq (data : List Nat) (data_ofs : Nat) :
    eph_read_tile_header data data_ofs =
      ⟨readI32 data data_ofs,
       Nat.log 2 (readU64 data (data_ofs + 4) / 4) / 2,
       toInt32 ((((readU64 data (data_ofs + 4) : Int) -
         toInt32 ((4 * (1 <<< ((2 * (Nat.log 2 (readU64 data (data_ofs + 4) / 4) / 2)) % 32))) % 2^32)) % (2^64 : Int)).toNat),
       data_ofs + 12⟩ := rfl

theorem tileHeader_version_eq (data : List Nat) (data_ofs : Nat) :
    (eph_read_tile_header data data_ofs).version = readI32 data data_ofs := rfl

theorem tileHeader_ofs_eq (data : List Nat) (data_ofs : Nat) :
    (eph_read_tile_header data data_ofs).data_ofs = data_ofs + 12 := rfl

/-- C3 amended: for every order ≤ 14 (so that `4*4^order` and every pixel
fit a 32-bit `int`) and every pixel `< 4*4^order`, decoding a header
carrying `nuniq = 4*4^order + pixel` at any cursor position recovers
exactly that order and pixel via the header formula and advances the
cursor by exactly 12 bytes. -/
theorem eph_read_tile_header_roundtrip_amended (ord pixv ver : Nat) (pre rest : List Nat)
    (h1 : ord ≤ 14) (h2 : pixv < 4 * 4^ord) :
    eph_read_tile_header (pre ++ (encodeU32 ver ++ (encodeU64 (4 * 4^ord + pixv) ++ rest)))
        pre.length
      = ⟨toInt32 ver, ord, (pixv : Int), pre.length + 12⟩ := by
  have hpow : (4:Nat)^ord = 2^(2*ord) := by
    rw [show (4:Nat) = 2^2 by norm_num, ← pow_mul]
  have h414 : (4:Nat)^14 = 268435456 := by norm_num
  have hple : (4:Nat)^ord ≤ 268435456 := h414 ▸ Nat.pow_le_pow_right (by norm_num) h1
  have hread64 : readU64
      (pre ++ (encodeU32 ver ++ (encodeU64 (4 * 4^ord + pixv) ++ rest)))
      (pre.length + 4) = 4 * 4^ord + pixv := by
    rw [readU64_append' pre _ _ 4 rfl,
      readU64_append' (encodeU32 ver) _ 4 0 (by rfl),
      readU64_encodeU64]
    exact Nat.mod_eq_of_lt (by omega)
  have hq : (4 * 4^ord + pixv) / 4 = 4^ord + pixv / 4 := by omega
  have hlogv : Nat.log 2 ((4 * 4^ord + pixv) / 4) = 2 * ord := by
    rw [hq]
    refine Nat.log_eq_of_pow_le_of_lt_pow ?_ ?_
    · rw [← hpow]; omega
    · rw [pow_succ, ← hpow]; omega
  have hordv : Nat.log 2 ((4 * 4^ord + pixv) / 4) / 2 = ord := by
    rw [hlogv]; omega
  have hshift : (4 * (1 <<< ((2 * ord) % 32))) % 2^32 = 4 * 4^ord := by
    rw [Nat.mod_eq_of_lt (show 2*ord < 32 by omega), Nat.shiftLeft_eq, one_mul, ← hpow]
    exact Nat.mod_eq_of_lt (by omega)
  have hfourI : toInt32 (4 * 4^ord) = ((4 * 4^ord : Nat) : Int) :=
    toInt32_small _ (by omega)
  have hsub : (((4 * 4^ord + pixv : Nat) : Int)) - ((4 * 4^ord : Nat) : Int)
      = (pixv : Int) := by push_cast; ring
  have hr32 : readU32 (pre ++ (encodeU32 ver ++ (encodeU64 (4 * 4^ord + pixv) ++ rest)))
      pre.length = ver % 2^32 := by
    rw [readU32_append' pre _ _ 0 (by omega)]
    exact readU32_encodeU32 ver _
  have hver : readI32
      (pre ++ (encodeU32 ver ++ (encodeU64 (4 * 4^ord + pixv) ++ rest))) pre.length
      = toInt32 ver := by
    show toInt32 (readU32 _ _) = toInt32 ver
    rw [hr32, toInt32_mod32]
  rw [eph_read_tile_header_eq, hread64, hordv, hshift, hfourI, hsub,
    Int.emod_eq_of_lt (by positivity) (by exact_mod_cast (by omega : pixv < 2^64)),
    Int.toNat_ofNat, toInt32_small pixv (by omega), hver]

/-- C3 witness: the amended theorem applied at order 3, pixel 7,
version 1, empty prefix and suffix. -/
theorem eph_read_tile_header_roundtrip_amended_witness :
    (3 ≤ 14 ∧ 7 < 4 * 4^3)
    ∧ eph_read_tile_header
        (([] : List Nat) ++ (encodeU32 1 ++ (encodeU64 (4 * 4^3 + 7) ++ ([] : List Nat))))
        ([] : List Nat).length
      = ⟨toInt32 1, 3, ((7 : Nat) : Int), ([] : List Nat).length + 12⟩ :=
  ⟨⟨by decide, by decide⟩,
    eph_read_tile_header_roundtrip_amended 3 7 1 [] [] (by decide) (by decide)⟩

theorem nameMatch_succ (n : Nat) (a b : List Nat) :
    nameMatch (n+1) a b =
      if a.headD 0 % 256 ≠ b.headD 0 % 256 then false
      else if a.headD 0 % 256 = 0 then true
      else nameMatch n a.tail b.tail := rfl

theorem nameMatch_symm : ∀ (n : Nat) (a b : List Nat),
    nameMatch n a b = nameMatch n b a := by
  intro n
  induction n with
  | zero => intro a b; rfl
  | succ n ih =>
    intro a b
    rw [nameMatch_succ, nameMatch_succ]
    by_cases h : a.headD 0 % 256 = b.headD 0 % 256
    · rw [if_neg (show ¬(a.headD 0 % 256 ≠ b.headD 0 % 256) by omega),
        if_neg (show ¬(b.headD 0 % 256 ≠ a.headD 0 % 256) by omega), h]
      split
      · rfl
      · exact ih a.tail b.tail
    · rw [if_pos (show a.headD 0 % 256 ≠ b.headD 0 % 256 from h),
        if_pos (show b.headD 0 % 256 ≠ a.headD 0 % 256 by omega)]

theorem nameMatch_trans : ∀ (n : Nat) (a b c : List Nat),
    nameMatch n a b = true → nameMatch n b c = true → nameMatch n a c = true := by
  intro n
  induction n with
  | zero => intro a b c _ _; rfl
  | succ n ih =>
    intro a b c hab hbc
    rw [nameMatch_succ] at hab hbc ⊢
    by_cases h1 : a.headD 0 % 256 = b.headD 0 % 256
    · by_cases h2 : b.headD 0 % 256 = c.headD 0 % 256
      · rw [if_neg (show ¬(a.headD 0 % 256 ≠ b.headD 0 % 256) by omega)] at hab
        rw [if_neg (show ¬(b.headD 0 % 256 ≠ c.headD 0 % 256) by omega)] at hbc
        rw [if_neg (show ¬(a.headD 0 % 256 ≠ c.headD 0 % 256) by omega)]
        by_cases h0 : a.headD 0 % 256 = 0
        · rw [if_pos h0]
        · rw [if_neg h0] at hab ⊢
          rw [if_neg (show ¬(b.headD 0 % 256 = 0) by omega)] at hbc
          exact ih _ _ _ hab hbc
      · rw [if_pos (show b.headD 0 % 256 ≠ c.headD 0 % 256 from h2)] at hbc
        simp at hbc
    · rw [if_pos (show a.headD 0 % 256 ≠ b.headD 0 % 256 from h1)] at hab
      simp at hab

theorem findColIdx_some (nm : List Nat) : ∀ (l : List eph_table_column_t) (j : Nat),
    findColIdx nm l = some j →
      j < l.length ∧ nameMatch 4 nm (l.getD j default).name = true := by
  intro l
  induction l with
  | nil => intro j h; exact Option.noConfusion h
  | cons c cs ih =>
    intro j h
    unfold findColIdx at h
    by_cases hc : nameMatch 4 nm c.name
    · rw [if_pos hc] at h
      cases h
      exact ⟨by simp, hc⟩
    · rw [if_neg hc] at h
      rcases ho : findColIdx nm cs with _ | j'
      · rw [ho] at h; exact Option.noConfusion h
      · rw [ho] at h
        simp only [Option.map_some', Option.some.injEq] at h
        subst h
        obtain ⟨hlt, hm⟩ := ih j' ho
        exact ⟨by simp; omega, by simpa using hm⟩

theorem findColIdx_none (nm : List Nat) : ∀ (l : List eph_table_column_t),
    findColIdx nm l = none ↔
      ∀ j, j < l.length → nameMatch 4 nm (l.getD j default).name = false := by
  intro l
  induction l with
  | nil => simp [findColIdx]
  | cons c cs ih =>
    unfold findColIdx
    by_cases hc : nameMatch 4 nm c.name
    · rw [if_pos hc]
      constructor
      · intro h; exact Option.noConfusion h
      · intro hall
        have := hall 0 (by simp)
        simp [hc] at this
    · rw [if_neg hc]
      constructor
      · intro h j hj
        have hn : findColIdx nm cs = none := by
          rcases ho : findColIdx nm cs with _ | j'
          · rfl
          · rw [ho] at h; simp at h
        cases j with
        | zero => simpa using hc
        | succ j =>
          have := (ih.1 hn) j (by simpa using hj)
          simpa using this
      · intro hall
        have hn : findColIdx nm cs = none := by
          rw [ih]
          intro j hj
          have := hall (j+1) (by simp; omega)
          simpa using this
        rw [hn]
        rfl

theorem findColIdx_congr (nm : List Nat) : ∀ (l1 l2 : List eph_table_column_t),
    l1.length = l2.length →
    (∀ j, j < l1.length → (l1.getD j default).name = (l2.getD j default).name) →
    findColIdx nm l1 = findColIdx nm l2 := by
  intro l1
  induction l1 with
  | nil =>
    intro l2 hl _
    cases l2 with
    | nil => rfl
    | cons d ds => simp at hl
  | cons c cs ih =>
    intro l2 hl hn
    cases l2 with
    | nil => simp at hl
    | cons d ds =>
      have hcd : c.name = d.name := by simpa using hn 0 (by simp)
      unfold findColIdx
      rw [hcd]
      by_cases hm : nameMatch 4 nm d.name
      · rw [if_pos hm, if_pos hm]
      · rw [if_neg hm, if_neg hm]
        rw [ih ds (by simpa using hl) (fun j hj => by simpa using hn (j+1) (by simp; omega))]

theorem prepLoop_spec (data : List Nat) (rs : Nat) (cols0 : List eph_table_column_t)
    (hdist : ∀ j1, j1 < cols0.length → ∀ j2, j2 < cols0.length → j1 ≠ j2 →
      nameMatch 4 (cols0.getD j1 default).name (cols0.getD j2 default).name = false) :
    ∀ (k i : Nat) (cur : List eph_table_column_t),
      cur.length = cols0.length →
      (∀ j, j < cols0.length →
        (cur.getD j default).name = (cols0.getD j default).name) →
      (∀ j, j < cols0.length →
        (cur.getD j default).type = (cols0.getD j default).type) →
      (∀ j, j < cols0.length → (cur.getD j default).row_size =
        if ∃ m, m < i ∧
            nameMatch 4 (diskName data m) ((cols0.getD j default).name) = true
        then rs else (cols0.getD j default).row_size) →
      ((∃ m, i ≤ m ∧ m < i + k ∧ diskMismatch data cols0 m) →
        (prepLoop data rs k i cur).1 = false)
      ∧ ((∀ m, i ≤ m → m < i + k → ¬ diskMismatch data cols0 m) →
        (prepLoop data rs k i cur).1 = true
        ∧ (prepLoop data rs k i cur).2.length = cols0.length
        ∧ (∀ j, j < cols0.length →
            ((prepLoop data rs k i cur).2.getD j default).row_size =
              if ∃ m, m < i + k ∧
                  nameMatch 4 (diskName data m) ((cols0.getD j default).name) = true
              then rs else (cols0.getD j default).row_size)) := by
  intro k
  induction k with
  | zero =>
    intro i cur hlen hnm htp hrow
    constructor
    · rintro ⟨m, hm1, hm2, -⟩
      omega
    · intro _
      exact ⟨rfl, hlen, fun j hj => by simpa using hrow j hj⟩
  | succ k ih =>
    intro i cur hlen hnm htp hrow
    rcases hf : findColIdx (diskName data i) cur with _ | j
    · -- no caller column matches disk column i
      have heq : prepLoop data rs (k+1) i cur = prepLoop data rs k (i+1) cur := by
        simp only [prepLoop, hf]
      have hf0 : findColIdx (diskName data i) cols0 = none := by
        rw [← findColIdx_congr (diskName data i) cur cols0 hlen
          (fun j hj => hnm j (hlen ▸ hj))]
        exact hf
      have hnomatch := (findColIdx_none (diskName data i) cols0).1 hf0
      have hrow' : ∀ j, j < cols0.length → (cur.getD j default).row_size =
          if ∃ m, m < i + 1 ∧
              nameMatch 4 (diskName data m) ((cols0.getD j default).name) = true
          then rs else (cols0.getD j default).row_size := by
        intro j hj
        rw [hrow j hj]
        by_cases hc : ∃ m, m < i ∧
            nameMatch 4 (diskName data m) ((cols0.getD j default).name) = true
        · obtain ⟨m, hm1, hm2⟩ := hc
          rw [if_pos ⟨m, hm1, hm2⟩, if_pos ⟨m, by omega, hm2⟩]
        · rw [if_neg hc, if_neg ?_]
          rintro ⟨m, hm1, hm2⟩
          rcases eq_or_ne m i with rfl | hne
          · rw [hnomatch j hj] at hm2
            exact Bool.noConfusion hm2
          · exact hc ⟨m, by omega, hm2⟩
      obtain ⟨ih1, ih2⟩ := ih (i+1) cur hlen hnm htp hrow'
      rw [heq]
      constructor
      · rintro ⟨m, hm1, hm2, hm3⟩
        apply ih1
        rcases eq_or_ne m i with rfl | hne
        · obtain ⟨j', hj', hm', -⟩ := hm3
          rw [hnomatch j' hj'] at hm'
          exact Bool.noConfusion hm'
        · exact ⟨m, by omega, by omega, hm3⟩
      · intro hno
        obtain ⟨g1, g2, g3⟩ := ih2 (fun m h1 h2 => hno m (by omega) (by omega))
        refine ⟨g1, g2, ?_⟩
        intro j hj
        rw [g3 j hj]
        have hidx : i + 1 + k = i + (k + 1) := by omega
        rw [hidx]
    · -- caller column j matches disk column i
      obtain ⟨hjcur, hjmatch⟩ := findColIdx_some (diskName data i) cur j hf
      have hjlen : j < cols0.length := hlen ▸ hjcur
      have hjm0 : nameMatch 4 (diskName data i) ((cols0.getD j default).name)
          = true := by
        rw [← hnm j hjlen]
        exact hjmatch
      have huniq : ∀ j', j' < cols0.length →
          nameMatch 4 (diskName data i) ((cols0.getD j' default).name) = true →
          j' = j := by
        intro j' hj' hm'
        by_contra hne
        have htr : nameMatch 4 ((cols0.getD j' default).name)
            ((cols0.getD j default).name) = true :=
          nameMatch_trans 4 _ _ _ (by rw [nameMatch_symm]; exact hm') hjm0
        rw [hdist j' hj' j hjlen hne] at htr
        exact Bool.noConfusion htr
      by_cases hty : (cur.getD j default).type ≠ diskType data i
      · have heq : prepLoop data rs (k+1) i cur = (false, cur) := by
          simp only [prepLoop, hf]
          rw [if_pos hty]
        rw [heq]
        have hMi : diskMismatch data cols0 i :=
          ⟨j, hjlen, hjm0, by rw [← htp j hjlen]; exact hty⟩
        constructor
        · intro _
          rfl
        · intro hno
          exact ((hno i (by omega) (by omega)) hMi).elim
      · push_neg at hty
        have heq : prepLoop data rs (k+1) i cur = prepLoop data rs k (i+1)
            (cur.set j (updateCol (cur.getD j default) rs
              (readU32 data (24 + i * 20)) (readU32 data (28 + i * 20))
              (readU32 data (32 + i * 20)))) := by
          simp only [prepLoop, hf]
          rw [if_neg (by simpa using hty)]
        set cur' := cur.set j (updateCol (cur.getD j default) rs
          (readU32 data (24 + i * 20)) (readU32 data (28 + i * 20))
          (readU32 data (32 + i * 20))) with hcur'
        have hlen' : cur'.length = cols0.length := by
          rw [hcur', List.length_set]
          exact hlen
        have hnm' : ∀ j', j' < cols0.length →
            (cur'.getD j' default).name = (cols0.getD j' default).name := by
          intro j' hj'
          rcases eq_or_ne j j' with rfl | hne
          · rw [hcur', getD_set_self _ _ _ _ hjcur]
            exact hnm j hj'
          · rw [hcur', getD_set_ne _ _ _ _ _ hne]
            exact hnm j' hj'
        have htp' : ∀ j', j' < cols0.length →
            (cur'.getD j' default).type = (cols0.getD j' default).type := by
          intro j' hj'
          rcases eq_or_ne j j' with rfl | hne
          · rw [hcur', getD_set_self _ _ _ _ hjcur]
            exact htp j hj'
          · rw [hcur', getD_set_ne _ _ _ _ _ hne]
            exact htp j' hj'
        have hrow' : ∀ j', j' < cols0.length → (cur'.getD j' default).row_size =
            if ∃ m, m < i + 1 ∧
                nameMatch 4 (diskName data m) ((cols0.getD j' default).name) = true
            then rs else (cols0.getD j' default).row_size := by
          intro j' hj'
          rcases eq_or_ne j j' with rfl | hne
          · rw [hcur', getD_set_self _ _ _ _ hjcur]
            rw [if_pos ⟨i, by omega, hjm0⟩]
            rfl
          · rw [hcur', getD_set_ne _ _ _ _ _ hne]
            rw [hrow j' hj']
            by_cases hc : ∃ m, m < i ∧
                nameMatch 4 (diskName data m) ((cols0.getD j' default).name) = true
            · obtain ⟨m, hm1, hm2⟩ := hc
              rw [if_pos ⟨m, hm1, hm2⟩, if_pos ⟨m, by omega, hm2⟩]
            · rw [if_neg hc, if_neg ?_]
              rintro ⟨m, hm1, hm2⟩
              rcases eq_or_ne m i with rfl | hmne
              · exact hne (huniq j' hj' hm2).symm
              · exact hc ⟨m, by omega, hm2⟩
        obtain ⟨ih1, ih2⟩ := ih (i+1) cur' hlen' hnm' htp' hrow'
        rw [heq]
        constructor
        · rintro ⟨m, hm1, hm2, hm3⟩
          apply ih1
          rcases eq_or_ne m i with rfl | hne
          · obtain ⟨j', hj', hm', hty'⟩ := hm3
            have hjj := huniq j' hj' hm'
            subst hjj
            rw [← htp j' hjlen] at hty'
            exact (hty' hty).elim
          · exact ⟨m, by omega, by omega, hm3⟩
        · intro hno
          obtain ⟨g1, g2, g3⟩ := ih2 (fun m h1 h2 => hno m (by omega) (by omega))
          refine ⟨g1, g2, ?_⟩
          intro j' hj'
          rw [g3 j' hj']
          have hidx : i + 1 + k = i + (k + 1) := by omega
          rw [hidx]

theorem all_rowsize_iff (l : List eph_table_column_t) :
    (l.all fun c => c.row_size ≠ 0) = true ↔
      ∀ j, j < l.length → (l.getD j default).row_size ≠ 0 := by
  rw [List.all_eq_true]
  constructor
  · intro h j hj
    have hmem : l.getD j default ∈ l := by
      rw [List.getD_eq_getElem _ _ hj]
      exact List.getElem_mem hj
    simpa using h _ hmem
  · intro h c hc
    obtain ⟨j, hj, hEq⟩ := List.mem_iff_getElem.1 hc
    have := h j hj
    rw [List.getD_eq_getElem _ _ hj, hEq] at this
    simpa using this

/-- C2 amended: for a version ≥ 3 table whose declared row stride is
nonzero, with caller columns initially unresolved (zero row stride
sentinel) and pairwise distinct names, `eph_read_table_prepare` fails
with the type-mismatch error exactly when some on-disk column whose
name matches a caller-declared column carries a different type tag;
returns the table's row count exactly when there is no such mismatch
and every caller-declared column is found by name with an equal type
tag; and fails with the missing-column error exactly when there is no
mismatch and some caller-declared column is not found. -/
theorem eph_read_table_prepare_match_amended (version : Int) (data : List Nat)
    (data_size row_size : Nat) (cols : List eph_table_column_t)
    (hv : 3 ≤ version)
    (h0 : ∀ c ∈ cols, c.row_size = 0)
    (hdist : ∀ j1, j1 < cols.length → ∀ j2, j2 < cols.length → j1 ≠ j2 →
      nameMatch 4 (cols.getD j1 default).name (cols.getD j2 default).name = false)
    (hrs : readU32 data 4 ≠ 0) :
    ∃ out, eph_read_table_prepare version data data_size 0 row_size cols = some out
      ∧ (out.ret = PrepRet.errType ↔
          ∃ m, m < readU32 data 8 ∧ diskMismatch data cols m)
      ∧ (out.ret = PrepRet.ok (readU32 data 12) ↔
          (¬ ∃ m, m < readU32 data 8 ∧ diskMismatch data cols m)
          ∧ ∀ j, j < cols.length → colFound data cols (readU32 data 8) j)
      ∧ (out.ret = PrepRet.errMissing ↔
          (¬ ∃ m, m < readU32 data 8 ∧ diskMismatch data cols m)
          ∧ ¬ ∀ j, j < cols.length → colFound data cols (readU32 data 8) j) := by
  have hnotlt : ¬ (version < 3) := by omega
  have hnotz : ¬ ((0 : Nat) ≠ 0) := by omega
  have hspec := prepLoop_spec data (readU32 data 4) cols hdist (readU32 data 8) 0 cols
    rfl (fun _ _ => rfl) (fun _ _ => rfl) (by
      intro j hj
      have hno : ¬ ∃ m, m < 0 ∧
          nameMatch 4 (diskName data m) ((cols.getD j default).name) = true := by
        rintro ⟨m, hm, -⟩
        omega
      rw [if_neg hno])
  rcases hp : prepLoop data (readU32 data 4) (readU32 data 8) 0 cols with ⟨b, cols'⟩
  rw [hp] at hspec
  obtain ⟨spec1, spec2⟩ := hspec
  have hgetD0 : ∀ j, j < cols.length → (cols.getD j default).row_size = 0 := by
    intro j hj
    apply h0
    rw [List.getD_eq_getElem _ _ hj]
    exact List.getElem_mem hj
  by_cases hM : ∃ m, m < readU32 data 8 ∧ diskMismatch data cols m
  · have hb : b = false := by
      apply spec1
      obtain ⟨m, hm, hmm⟩ := hM
      exact ⟨m, by omega, by omega, hmm⟩
    subst hb
    refine ⟨⟨PrepRet.errType, cols', data, 0⟩, ?_, ?_, ?_, ?_⟩
    · unfold eph_read_table_prepare
      rw [if_neg hnotz, if_neg hnotlt]
      simp only [hp]
    · exact iff_of_true rfl hM
    · exact iff_of_false (by simp) (fun h => h.1 hM)
    · exact iff_of_false (by simp) (fun h => h.1 hM)
  · have hres := spec2 (fun m h1 h2 hmm => hM ⟨m, by omega, hmm⟩)
    obtain ⟨hb, hlen', hrowf⟩ := hres
    subst hb
    have hzk : ∀ (P : Nat → Prop), (∃ m, m < 0 + readU32 data 8 ∧ P m) ↔
        (∃ m, m < readU32 data 8 ∧ P m) := by
      intro P
      constructor
      · rintro ⟨m, h1, h2⟩; exact ⟨m, by omega, h2⟩
      · rintro ⟨m, h1, h2⟩; exact ⟨m, by omega, h2⟩
    by_cases hA : ∀ j, j < cols.length → colFound data cols (readU32 data 8) j
    · have hall : (cols'.all fun c => c.row_size ≠ 0) = true := by
        rw [all_rowsize_iff]
        intro j hj
        have hj0 : j < cols.length := hlen' ▸ hj
        rw [hrowf j hj0]
        obtain ⟨m, hm1, hm2, -⟩ := hA j hj0
        rw [if_pos ⟨m, by omega, hm2⟩]
        exact hrs
      refine ⟨⟨PrepRet.ok (readU32 data 12), cols',
        (if readU32 data 0 &&& 1 ≠ 0 then
          shuffleAt data (16 + readU32 data 8 * 20) (readU32 data 4) (readU32 data 12)
         else data), 0 + 16 + readU32 data 8 * 20⟩, ?_, ?_, ?_, ?_⟩
      · unfold eph_read_table_prepare
        rw [if_neg hnotz, if_neg hnotlt]
        simp only [hp, hall, if_true, reduceIte]
      · exact iff_of_false (by simp) (fun h => hM (by simpa using h))
      · exact iff_of_true rfl ⟨hM, hA⟩
      · exact iff_of_false (by simp) (fun h => h.2 hA)
    · have hall : ¬ ((cols'.all fun c => c.row_size ≠ 0) = true) := by
        rw [all_rowsize_iff]
        intro hcon
        apply hA
        intro j hj0
        have hj' : j < cols'.length := hlen' ▸ hj0
        have := hcon j hj'
        rw [hrowf j hj0] at this
        by_cases hc : ∃ m, m < 0 + readU32 data 8 ∧
            nameMatch 4 (diskName data m) ((cols.getD j default).name) = true
        · obtain ⟨m, hm1, hm2⟩ := hc
          refine ⟨m, by omega, hm2, ?_⟩
          by_contra hne
          exact hM ⟨m, by omega, j, hj0, hm2, hne⟩
        · rw [if_neg hc, hgetD0 j hj0] at this
          exact (this rfl).elim
      refine ⟨⟨PrepRet.errMissing, cols', data, 0⟩, ?_, ?_, ?_, ?_⟩
      · unfold eph_read_table_prepare
        rw [if_neg hnotz, if_neg hnotlt]
        simp only [hp]
        rw [if_neg hall]
      · exact iff_of_false (by simp) (fun h => hM (by simpa using h))
      · exact iff_of_false (by simp) (fun h => (hA h.2).elim)
      · exact iff_of_true rfl ⟨hM, hA⟩

/-- C2 counterexample: a version-3 table whose declared row stride field
is 0.  Its single on-disk column is found by the caller's single
declared column with matching name and equal type tag (`colFound ... 1 0`
below), so the claim's "succeeds exactly when every caller-declared
column was found by name on disk with an equal type tag" demands
success with row count 5 — but the code copies the zero row stride into
the matched column, the zero-sentinel test then reports it missing, and
the call fails with the missing-column error. -/
theorem eph_read_table_prepare_zero_stride_counterexample :
    eph_read_table_prepare 3
      [0,0,0,0, 0,0,0,0, 1,0,0,0, 5,0,0,0,
       109,97,103,0, 102,0,0,0, 3,0,0,0, 0,0,0,0, 4,0,0,0] 36 0 0
      ([⟨[109,97,103,0], 102, 0, 0, 0, 0, 0⟩] : List eph_table_column_t)
      = some ⟨PrepRet.errMissing, [⟨[109,97,103,0], 102, 0, 4, 0, 3, 0⟩],
          [0,0,0,0, 0,0,0,0, 1,0,0,0, 5,0,0,0,
       109,97,103,0, 102,0,0,0, 3,0,0,0, 0,0,0,0, 4,0,0,0], 0⟩
    ∧ readU32 [0,0,0,0, 0,0,0,0, 1,0,0,0, 5,0,0,0,
       109,97,103,0, 102,0,0,0, 3,0,0,0, 0,0,0,0, 4,0,0,0] 8 = 1
    ∧ colFound [0,0,0,0, 0,0,0,0, 1,0,0,0, 5,0,0,0,
       109,97,103,0, 102,0,0,0, 3,0,0,0, 0,0,0,0, 4,0,0,0] ([⟨[109,97,103,0], 102, 0, 0, 0, 0, 0⟩] : List eph_table_column_t) 1 0 := by
  refine ⟨by decide, by decide, ?_⟩
  refine ⟨0, by decide, by decide, by decide⟩

/-- C2 witness: the amended theorem applied to a concrete one-column
version-3 table with row stride 12. -/
theorem eph_read_table_prepare_match_amended_witness :
    ((3 : Int) ≤ 3
      ∧ (∀ c ∈ ([⟨[109,97,103,0], 102, 0, 0, 0, 0, 0⟩] : List eph_table_column_t), c.row_size = 0)
      ∧ (∀ j1, j1 < (([⟨[109,97,103,0], 102, 0, 0, 0, 0, 0⟩] : List eph_table_column_t)).length → ∀ j2, j2 < (([⟨[109,97,103,0], 102, 0, 0, 0, 0, 0⟩] : List eph_table_column_t)).length → j1 ≠ j2 →
          nameMatch 4 ((([⟨[109,97,103,0], 102, 0, 0, 0, 0, 0⟩] : List eph_table_column_t)).getD j1 default).name
            ((([⟨[109,97,103,0], 102, 0, 0, 0, 0, 0⟩] : List eph_table_column_t)).getD j2 default).name = false)
      ∧ readU32 [0,0,0,0, 12,0,0,0, 1,0,0,0, 7,0,0,0,
        109,97,103,0, 102,0,0,0, 3,0,0,0, 4,0,0,0, 4,0,0,0] 4 ≠ 0)
    ∧ (∃ out, eph_read_table_prepare 3 [0,0,0,0, 12,0,0,0, 1,0,0,0, 7,0,0,0,
        109,97,103,0, 102,0,0,0, 3,0,0,0, 4,0,0,0, 4,0,0,0] 36 0 0 ([⟨[109,97,103,0], 102, 0, 0, 0, 0, 0⟩] : List eph_table_column_t) = some out
      ∧ (out.ret = PrepRet.errType ↔
          ∃ m, m < readU32 [0,0,0,0, 12,0,0,0, 1,0,0,0, 7,0,0,0,
        109,97,103,0, 102,0,0,0, 3,0,0,0, 4,0,0,0, 4,0,0,0] 8 ∧ diskMismatch [0,0,0,0, 12,0,0,0, 1,0,0,0, 7,0,0,0,
        109,97,103,0, 102,0,0,0, 3,0,0,0, 4,0,0,0, 4,0,0,0] ([⟨[109,97,103,0], 102, 0, 0, 0, 0, 0⟩] : List eph_table_column_t) m)
      ∧ (out.ret = PrepRet.ok (readU32 [0,0,0,0, 12,0,0,0, 1,0,0,0, 7,0,0,0,
        109,97,103,0, 102,0,0,0, 3,0,0,0, 4,0,0,0, 4,0,0,0] 12) ↔
          (¬ ∃ m, m < readU32 [0,0,0,0, 12,0,0,0, 1,0,0,0, 7,0,0,0,
        109,97,103,0, 102,0,0,0, 3,0,0,0, 4,0,0,0, 4,0,0,0] 8 ∧ diskMismatch [0,0,0,0, 12,0,0,0, 1,0,0,0, 7,0,0,0,
        109,97,103,0, 102,0,0,0, 3,0,0,0, 4,0,0,0, 4,0,0,0] ([⟨[109,97,103,0], 102, 0, 0, 0, 0, 0⟩] : List eph_table_column_t) m)
          ∧ ∀ j, j < (([⟨[109,97,103,0], 102, 0, 0, 0, 0, 0⟩] : List eph_table_column_t)).length →
              colFound [0,0,0,0, 12,0,0,0, 1,0,0,0, 7,0,0,0,
        109,97,103,0, 102,0,0,0, 3,0,0,0, 4,0,0,0, 4,0,0,0] ([⟨[109,97,103,0], 102, 0, 0, 0, 0, 0⟩] : List eph_table_column_t) (readU32 [0,0,0,0, 12,0,0,0, 1,0,0,0, 7,0,0,0,
        109,97,103,0, 102,0,0,0, 3,0,0,0, 4,0,0,0, 4,0,0,0] 8) j)
      ∧ (out.ret = PrepRet.errMissing ↔
          (¬ ∃ m, m < readU32 [0,0,0,0, 12,0,0,0, 1,0,0,0, 7,0,0,0,
        109,97,103,0, 102,0,0,0, 3,0,0,0, 4,0,0,0, 4,0,0,0] 8 ∧ diskMismatch [0,0,0,0, 12,0,0,0, 1,0,0,0, 7,0,0,0,
        109,97,103,0, 102,0,0,0, 3,0,0,0, 4,0,0,0, 4,0,0,0] ([⟨[109,97,103,0], 102, 0, 0, 0, 0, 0⟩] : List eph_table_column_t) m)
          ∧ ¬ ∀ j, j < (([⟨[109,97,103,0], 102, 0, 0, 0, 0, 0⟩] : List eph_table_column_t)).length →
              colFound [0,0,0,0, 12,0,0,0, 1,0,0,0, 7,0,0,0,
        109,97,103,0, 102,0,0,0, 3,0,0,0, 4,0,0,0, 4,0,0,0] ([⟨[109,97,103,0], 102, 0, 0, 0, 0, 0⟩] : List eph_table_column_t) (readU32 [0,0,0,0, 12,0,0,0, 1,0,0,0, 7,0,0,0,
        109,97,103,0, 102,0,0,0, 3,0,0,0, 4,0,0,0, 4,0,0,0] 8) j)) :=
  ⟨⟨by decide, by decide, by decide, by decide⟩,
    eph_read_table_prepare_match_amended 3 [0,0,0,0, 12,0,0,0, 1,0,0,0, 7,0,0,0,
        109,97,103,0, 102,0,0,0, 3,0,0,0, 4,0,0,0, 4,0,0,0] 36 0 [⟨[109,97,103,0], 102, 0, 0, 0, 0, 0⟩]
      (by decide) (by decide) (by decide) (by decide)⟩

theorem readU32_lt (data : List Nat) (i : Nat) : readU32 data i < 2^32 := by
  unfold readU32 readByte
  omega

/-- C1 counterexample: a 16-byte buffer with valid magic and version
whose single chunk declares payload length `0xFFFFFFFC`.  Read into the
C `int`, that is `-4`, so the walk consumes `-4 + 12 = 8` bytes —
exactly the remainder — and `eph_load` returns 0, although the
spec-side chunk structure (32-bit *unsigned* payload lengths consuming
the buffer exactly) does not hold: success does not imply the claimed
structure, refuting the claimed equivalence. -/
theorem eph_load_signed_length_counterexample :
    eph_load [69,80,72,69, 2,0,0,0, 84,84,84,84, 252,255,255,255] = some 0
    ∧ ¬ ephStructure [69,80,72,69, 2,0,0,0, 84,84,84,84, 252,255,255,255] := by
  constructor
  · decide
  · decide

theorem loadLoop_succ_eq (data : List Nat) (pos rem : Int) (fuel : Nat) :
    loadLoop data pos rem (fuel+1) =
      if rem = 0 then some 0
      else if rem < 8 then some (-1)
      else if pos < 0 ∨ (data.length : Int) < pos + 8 then none
      else loadLoop data (pos + readI32 data (pos + 4).toNat + 12)
        (rem - (readI32 data (pos + 4).toNat + 12)) fuel := rfl

theorem chunksOkB_succ_eq (data : List Nat) (rem fuel : Nat) :
    chunksOkB data rem (fuel+1) =
      if rem = 0 then true
      else if rem < 8 then false
      else if readU32 data (data.length - rem + 4) + 12 ≤ rem then
        chunksOkB data (rem - (readU32 data (data.length - rem + 4) + 12)) fuel
      else false := rfl

theorem loadLoop_of_chunksOk (data : List Nat) (hbig : data.length < 2^31) :
    ∀ (fuelS rem : Nat), chunksOkB data rem fuelS = true → rem + 8 ≤ data.length →
      ∀ (fuelL : Nat), rem < fuelL →
        loadLoop data ((data.length - rem : Nat) : Int) (rem : Int) fuelL = some 0 := by
  intro fuelS
  induction fuelS with
  | zero =>
    intro rem h
    exact absurd h (by simp [chunksOkB])
  | succ fuelS ih =>
    intro rem h hrem fuelL hfuel
    obtain ⟨g, rfl⟩ : ∃ g, fuelL = g + 1 := ⟨fuelL - 1, by omega⟩
    rw [chunksOkB_succ_eq] at h
    by_cases h0 : rem = 0
    · subst h0
      rw [loadLoop_succ_eq, if_pos (by norm_num)]
    · rw [if_neg h0] at h
      by_cases h8 : rem < 8
      · rw [if_pos h8] at h
        exact Bool.noConfusion h
      · rw [if_neg h8] at h
        by_cases hlen : readU32 data (data.length - rem + 4) + 12 ≤ rem
        · rw [if_pos hlen] at h
          rw [loadLoop_succ_eq]
          rw [if_neg (by omega), if_neg (by omega), if_neg (by omega)]
          have htoNat : (((data.length - rem : Nat) : Int) + 4).toNat
              = data.length - rem + 4 := by omega
          rw [htoNat]
          have hlt31 : readU32 data (data.length - rem + 4) < 2^31 := by omega
          have hri : readI32 data (data.length - rem + 4)
              = (readU32 data (data.length - rem + 4) : Int) := by
            unfold readI32
            exact toInt32_small _ hlt31
          rw [hri]
          have hpos' : ((data.length - rem : Nat) : Int) +
              (readU32 data (data.length - rem + 4) : Int) + 12
              = ((data.length - (rem - (readU32 data (data.length - rem + 4) + 12))
                  : Nat) : Int) := by omega
          have hrem' : (rem : Int) -
              ((readU32 data (data.length - rem + 4) : Int) + 12)
              = ((rem - (readU32 data (data.length - rem + 4) + 12) : Nat) : Int) := by
            omega
          rw [hpos', hrem']
          exact ih _ h (by omega) g (by omega)
        · rw [if_neg hlen] at h
          exact Bool.noConfusion h

theorem readByte_dropLast (data : List Nat) (i : Nat) (h : i + 1 < data.length) :
    readByte data.dropLast i = readByte data i := by
  unfold readByte
  have h1 : i < data.dropLast.length := by simp; omega
  have h2 : i < data.length := by omega
  rw [List.getD_eq_getElem _ _ h1, List.getD_eq_getElem _ _ h2]
  congr 1
  exact List.getElem_dropLast data i h1

theorem readU32_dropLast (data : List Nat) (i : Nat) (h : i + 5 ≤ data.length) :
    readU32 data.dropLast i = readU32 data i := by
  unfold readU32
  rw [readByte_dropLast data i (by omega), readByte_dropLast data (i+1) (by omega),
    readByte_dropLast data (i+2) (by omega), readByte_dropLast data (i+3) (by omega)]

theorem readBytes_dropLast (data : List Nat) (i n : Nat) (h : i + n + 1 ≤ data.length) :
    readBytes data.dropLast i n = readBytes data i n := by
  unfold readBytes
  apply List.map_congr_left
  intro k hk
  rw [List.mem_range] at hk
  exact readByte_dropLast data (i + k) (by omega)

theorem loadLoop_truncated (data : List Nat) (hbig : data.length < 2^31) :
    ∀ (fuelS rem : Nat), chunksOkB data rem fuelS = true → 0 < rem →
      rem + 8 ≤ data.length →
      ∀ (fuelL : Nat), rem < fuelL →
        loadLoop data.dropLast ((data.length - rem : Nat) : Int) ((rem : Int) - 1)
          fuelL = some (-1) := by
  intro fuelS
  induction fuelS with
  | zero =>
    intro rem h
    exact absurd h (by simp [chunksOkB])
  | succ fuelS ih =>
    intro rem h hpos hrem fuelL hfuel
    obtain ⟨g, rfl⟩ : ∃ g, fuelL = g + 1 := ⟨fuelL - 1, by omega⟩
    rw [chunksOkB_succ_eq] at h
    rw [if_neg (by omega)] at h
    by_cases h8 : rem < 8
    · rw [if_pos h8] at h
      exact Bool.noConfusion h
    · rw [if_neg h8] at h
      by_cases hlen : readU32 data (data.length - rem + 4) + 12 ≤ rem
      · rw [if_pos hlen] at h
        have hLd : data.dropLast.length = data.length - 1 := by simp
        rw [loadLoop_succ_eq]
        rw [if_neg (by omega), if_neg (by omega), if_neg (by rw [hLd]; omega)]
        have htoNat : (((data.length - rem : Nat) : Int) + 4).toNat
            = data.length - rem + 4 := by omega
        rw [htoNat]
        have hr32 : readU32 data.dropLast (data.length - rem + 4)
            = readU32 data (data.length - rem + 4) :=
          readU32_dropLast data _ (by omega)
        have hlt31 : readU32 data (data.length - rem + 4) < 2^31 := by omega
        have hri : readI32 data.dropLast (data.length - rem + 4)
            = (readU32 data (data.length - rem + 4) : Int) := by
          unfold readI32
          rw [hr32]
          exact toInt32_small _ hlt31
        rw [hri]
        have hpos' : ((data.length - rem : Nat) : Int) +
            (readU32 data (data.length - rem + 4) : Int) + 12
            = ((data.length - (rem - (readU32 data (data.length - rem + 4) + 12))
                : Nat) : Int) := by omega
        have hrem' : (rem : Int) - 1 -
            ((readU32 data (data.length - rem + 4) : Int) + 12)
            = ((rem - (readU32 data (data.length - rem + 4) + 12) : Nat) : Int)
              - 1 := by omega
        rw [hpos', hrem']
        by_cases hz : rem - (readU32 data (data.length - rem + 4) + 12) = 0
        · rw [hz]
          obtain ⟨g', rfl⟩ : ∃ g', g = g' + 1 := ⟨g - 1, by omega⟩
          rw [loadLoop_succ_eq]
          rw [if_neg (by norm_num), if_pos (by norm_num)]
        · exact ih _ h (by omega) (by omega) g (by omega)
      · rw [if_neg hlen] at h
        exact Bool.noConfusion h

/-- C1 amended: for buffers shorter than 2^31 (the reach of the C `int`
length), `eph_load` succeeds on every buffer satisfying the spec-side
structure (magic, supported version 2, unsigned chunk records consuming
the remaining length exactly); success still implies the magic and
version checks passed; a magic or version mismatch yields the format
error `-1`; and a one-byte truncation of a structure-valid buffer with
at least one chunk yields the format error `-1`.  The converse
direction of the original claim (success implies the unsigned chunk
structure) is refuted by the counterexample above: payload lengths are
read as signed 32-bit ints, so it holds only for payload lengths below
2^31. -/
theorem eph_load_envelope_amended (data : List Nat) (hbig : data.length < 2^31) :
    (ephStructure data → eph_load data = some 0)
    ∧ (eph_load data = some 0 →
        readBytes data 0 4 = [69, 80, 72, 69] ∧ 8 ≤ data.length
          ∧ readU32 data 4 = 2)
    ∧ (readBytes data 0 4 ≠ [69, 80, 72, 69] → eph_load data = some (-1))
    ∧ (readBytes data 0 4 = [69, 80, 72, 69] → 8 ≤ data.length →
        readU32 data 4 ≠ 2 → eph_load data = some (-1))
    ∧ (ephStructure data → 8 < data.length → eph_load data.dropLast = some (-1)) := by
  have hinv : ∀ i, readI32 data i = 2 → readU32 data i = 2 := by
    intro i h
    have hlt := readU32_lt data i
    unfold readI32 toInt32 at h
    split at h <;> omega
  refine ⟨?_, ?_, ?_, ?_, ?_⟩
  · rintro ⟨hlen8, hmagic, hver, hchunks⟩
    unfold eph_load
    rw [if_neg (by omega), if_neg (by simp [hmagic]),
      if_neg (by omega),
      if_neg (by
        rw [show readI32 data 4 = 2 by
          unfold readI32
          rw [hver]
          exact toInt32_small 2 (by norm_num)]
        omega)]
    have h2 : (data.length : Int) - 8 = ((data.length - 8 : Nat) : Int) := by omega
    have h1 : (8 : Int) = ((data.length - (data.length - 8) : Nat) : Int) := by omega
    rw [h2, h1]
    exact loadLoop_of_chunksOk data hbig _ _ hchunks (by omega) _ (by omega)
  · intro h
    unfold eph_load at h
    by_cases c1 : (data.length : Int) < 4
    · rw [if_pos c1] at h
      simp at h
    · rw [if_neg c1] at h
      by_cases c2 : readBytes data 0 4 ≠ [69, 80, 72, 69]
      · rw [if_pos c2] at h
        simp at h
      · rw [if_neg c2] at h
        by_cases c3 : (data.length : Int) < 8
        · rw [if_pos c3] at h
          exact Option.noConfusion h
        · rw [if_neg c3] at h
          by_cases c4 : readI32 data 4 ≠ 2
          · rw [if_pos c4] at h
            simp at h
          · push_neg at c2 c4
            exact ⟨c2, by omega, hinv 4 c4⟩
  · intro hm
    unfold eph_load
    by_cases c1 : (data.length : Int) < 4
    · rw [if_pos c1]
    · rw [if_neg c1, if_pos hm]
  · intro hm hL hv
    unfold eph_load
    rw [if_neg (by omega), if_neg (by simp [hm]),
      if_neg (by omega), if_pos ?_]
    intro hcon
    exact hv (hinv 4 hcon)
  · rintro ⟨hlen8, hmagic, hver, hchunks⟩ hlt
    unfold eph_load
    have hLd : data.dropLast.length = data.length - 1 := by simp
    rw [hLd]
    rw [if_neg (by omega),
      if_neg (by simp [readBytes_dropLast data 0 4 (by omega), hmagic]),
      if_neg (by omega),
      if_neg (by
        rw [show readI32 data.dropLast 4 = 2 by
          unfold readI32
          rw [readU32_dropLast data 4 (by omega), hver]
          exact toInt32_small 2 (by norm_num)]
        omega)]
    have h2 : ((data.length - 1 : Nat) : Int) - 8
        = ((data.length - 8 : Nat) : Int) - 1 := by omega
    have h1 : (8 : Int) = ((data.length - (data.length - 8) : Nat) : Int) := by omega
    rw [h2, h1]
    have hfuel : data.length - 1 + 1 = data.length := by omega
    rw [hfuel]
    exact loadLoop_truncated data hbig _ _ hchunks (by omega) (by omega) _ (by omega)

/-- C1 witness: the amended theorem applied to a concrete valid
container holding one zero-length chunk. -/
theorem eph_load_envelope_amended_witness :
    (([69,80,72,69, 2,0,0,0, 65,65,65,65, 0,0,0,0, 9,9,9,9] : List Nat)).length < 2^31
    ∧ ((ephStructure [69,80,72,69, 2,0,0,0, 65,65,65,65, 0,0,0,0, 9,9,9,9] → eph_load [69,80,72,69, 2,0,0,0, 65,65,65,65, 0,0,0,0, 9,9,9,9] = some 0)
      ∧ (eph_load [69,80,72,69, 2,0,0,0, 65,65,65,65, 0,0,0,0, 9,9,9,9] = some 0 →
          readBytes [69,80,72,69, 2,0,0,0, 65,65,65,65, 0,0,0,0, 9,9,9,9] 0 4 = [69, 80, 72, 69]
            ∧ 8 ≤ (([69,80,72,69, 2,0,0,0, 65,65,65,65, 0,0,0,0, 9,9,9,9] : List Nat)).length
            ∧ readU32 [69,80,72,69, 2,0,0,0, 65,65,65,65, 0,0,0,0, 9,9,9,9] 4 = 2)
      ∧ (readBytes [69,80,72,69, 2,0,0,0, 65,65,65,65, 0,0,0,0, 9,9,9,9] 0 4 ≠ [69, 80, 72, 69] →
          eph_load [69,80,72,69, 2,0,0,0, 65,65,65,65, 0,0,0,0, 9,9,9,9] = some (-1))
      ∧ (readBytes [69,80,72,69, 2,0,0,0, 65,65,65,65, 0,0,0,0, 9,9,9,9] 0 4 = [69, 80, 72, 69] →
          8 ≤ (([69,80,72,69, 2,0,0,0, 65,65,65,65, 0,0,0,0, 9,9,9,9] : List Nat)).length →
          readU32 [69,80,72,69, 2,0,0,0, 65,65,65,65, 0,0,0,0, 9,9,9,9] 4 ≠ 2 →
          eph_load [69,80,72,69, 2,0,0,0, 65,65,65,65, 0,0,0,0, 9,9,9,9] = some (-1))
      ∧ (ephStructure [69,80,72,69, 2,0,0,0, 65,65,65,65, 0,0,0,0, 9,9,9,9] →
          8 < (([69,80,72,69, 2,0,0,0, 65,65,65,65, 0,0,0,0, 9,9,9,9] : List Nat)).length →
          eph_load (([69,80,72,69, 2,0,0,0, 65,65,65,65, 0,0,0,0, 9,9,9,9] : List Nat)).dropLast = some (-1))) :=
  ⟨by decide, eph_load_envelope_amended [69,80,72,69, 2,0,0,0, 65,65,65,65, 0,0,0,0, 9,9,9,9] (by decide)⟩

/-- C3 counterexample: at order 15, pixel `2^31` (`nuniq = 4*4^15 + 2^31
= 6442450944`) the claimed round-trip fails: the reader does decode
order 15, but `4 * (1 << 30)` overflows the 32-bit `int` (wrapping to 0
on the engine's targets; undefined behaviour in ISO C) and the store
into the `int *pix` truncates, so the decoded pixel is `-2^31`, not the
claimed `2^31`. -/
theorem eph_read_tile_header_order15_counterexample :
    (6442450944 : Nat) = 4 * 4^15 + 2^31
    ∧ (eph_read_tile_header (encodeU32 1 ++ encodeU64 6442450944) 0).order = 15
    ∧ (eph_read_tile_header (encodeU32 1 ++ encodeU64 6442450944) 0).pix
        ≠ (2^31 : Int)
    ∧ (eph_read_tile_header (encodeU32 1 ++ encodeU64 6442450944) 0).pix
        = -(2^31) := by
  have t1 : readU64 (encodeU32 1 ++ encodeU64 6442450944) (0 + 4) = 6442450944 := by
    rw [readU64_append' (encodeU32 1) (encodeU64 6442450944) (0 + 4) 0 (by rfl)]
    have h0 := readU64_encodeU64 6442450944 []
    rw [List.append_nil] at h0
    rw [h0]
    norm_num
  have hdiv : (6442450944 : Nat) / 4 = 1610612736 := by norm_num
  have hlog : Nat.log 2 1610612736 = 30 :=
    Nat.log_eq_of_pow_le_of_lt_pow (by norm_num) (by norm_num)
  have hord : (eph_read_tile_header (encodeU32 1 ++ encodeU64 6442450944) 0).order
      = 15 := by
    rw [tileHeader_order_eq, t1, hdiv, hlog]
  have hpix : (eph_read_tile_header (encodeU32 1 ++ encodeU64 6442450944) 0).pix
      = -(2^31) := by
    rw [tileHeader_pix_eq, t1, hdiv, hlog]
    norm_num [Nat.shiftLeft_eq, toInt32]
    omega
  exact ⟨by norm_num, hord, by rw [hpix]; norm_num, hpix⟩
